import Mathlib

/-!
# Verification of the `named-block` token rewriter (`src/lib.rs`, `block!` macro)

The `block!` macro is a compile-time token-tree scanner/rewriter.  We embed its
data model shallowly:

* a Rust token tree is `Tok` (leaf tokens and bracketed groups);
* one `@scan` state of the macro is `ScanState` (surrounding bracket kind,
  block label, result-slot name, remaining input, accumulated output, context
  stack, loop-shape tag, slot initializer), mirroring the argument list of the
  `@scan` rules in `src/lib.rs` lines 134-289;
* each `macro_rules` rule application is one `step` of a small-step machine,
  with the rules tried in the source's priority order;
* the `$e:expr` fragment matcher is modelled as the maximal nonempty token run
  containing no top-level `;` (for genuine Rust expressions followed by `;`
  this is exactly what `expr` captures, since any `;` inside an expression is
  nested inside a bracket group);
* the `$ignore:item` fragment matcher is modelled as consuming tokens up to
  and including the first top-level `;` or top-level brace group (Rust items
  end with one of those two);
* the `static_cond!` label-equality oracle is token equality on `Tok`.

Scanning runs on fuel (`scanF`); termination is proved via a measure.  A
structurally recursive rewriter (`rwCore`/`rwRun`) is proved equivalent to the
machine and used for compositional reasoning.  A small fuel-based interpreter
(`evalR`) gives runtime semantics to the emitted token programs (enough of
Rust for the wrapper template and block bodies: `let`, assignment, labeled
`loop`, `break`/`continue` with labels and values, literals, nested blocks).
-/

/-- The three bracket kinds of Rust token groups. -/
inductive Brack where
  | brace
  | paren
  | square
deriving DecidableEq, Repr

/-- A Rust token tree: a leaf token (identifier, keyword, punctuation,
lifetime — all carried as their text) or an integer literal, or a bracketed
group of token trees. -/
inductive Tok where
  | id (s : String)
  | lit (n : Int)
  | group (b : Brack) (ts : List Tok)
deriving Repr

mutual
/-- Boolean equality on token trees. -/
def beqT : Tok → Tok → Bool
  | .id a, .id b => a == b
  | .lit a, .lit b => a == b
  | .group a as, .group b bs => (a == b) && beqL as bs
  | _, _ => false
/-- Boolean equality on token lists. -/
def beqL : List Tok → List Tok → Bool
  | [], [] => true
  | x :: xs, y :: ys => beqT x y && beqL xs ys
  | _, _ => false
end

mutual
theorem beqT_iff : ∀ a b : Tok, beqT a b = true ↔ a = b
  | .id a, .id b => by simp [beqT]
  | .id _, .lit _ => by simp [beqT]
  | .id _, .group _ _ => by simp [beqT]
  | .lit _, .id _ => by simp [beqT]
  | .lit a, .lit b => by simp [beqT]
  | .lit _, .group _ _ => by simp [beqT]
  | .group _ _, .id _ => by simp [beqT]
  | .group _ _, .lit _ => by simp [beqT]
  | .group a as, .group b bs => by
      simp [beqT, beqL_iff as bs]
theorem beqL_iff : ∀ as bs : List Tok, beqL as bs = true ↔ as = bs
  | [], [] => by simp [beqL]
  | [], _ :: _ => by simp [beqL]
  | _ :: _, [] => by simp [beqL]
  | x :: xs, y :: ys => by
      simp [beqL, beqT_iff x y, beqL_iff xs ys]
end

instance : DecidableEq Tok := fun a b => decidable_of_iff _ (beqT_iff a b)

mutual
/-- Size of a token tree (used for the scanner's termination measure). -/
def sizeT : Tok → Nat
  | .id _ => 1
  | .lit _ => 1
  | .group _ ts => 1 + sizeL ts
/-- Size of a token list. -/
def sizeL : List Tok → Nat
  | [] => 0
  | t :: ts => sizeT t + sizeL ts
end

theorem sizeT_pos (t : Tok) : 1 ≤ sizeT t := by
  cases t <;> simp [sizeT]

theorem sizeL_append (a b : List Tok) : sizeL (a ++ b) = sizeL a + sizeL b := by
  induction a with
  | nil => simp [sizeL]
  | cons t ts ih => simp [sizeL, ih]; omega

/-- Split a token list at the first top-level `;`, returning the tokens
before it and the tokens after it.  This models how the scanner's
`$e:expr ;` patterns carve an expression out of the statement stream. -/
def splitAtSemi : List Tok → Option (List Tok × List Tok)
  | [] => none
  | .id ";" :: rest => some ([], rest)
  | t :: rest => (splitAtSemi rest).map (fun p => (t :: p.1, p.2))

theorem splitAtSemi_spec : ∀ ts e r, splitAtSemi ts = some (e, r) →
    ts = e ++ Tok.id ";" :: r ∧ Tok.id ";" ∉ e := by
  intro ts
  induction ts with
  | nil => intro e r h; simp [splitAtSemi] at h
  | cons t rest ih =>
    intro e r h
    by_cases ht : t = Tok.id ";"
    · subst ht
      simp [splitAtSemi] at h
      obtain ⟨h1, h2⟩ := h
      subst h1; subst h2
      simp
    · rw [show splitAtSemi (t :: rest) = (splitAtSemi rest).map (fun p => (t :: p.1, p.2)) by
        cases t with
        | id s =>
          by_cases hs : s = ";"
          · exact absurd (by rw [hs]) ht
          · simp [splitAtSemi, hs]
        | lit n => simp [splitAtSemi]
        | group b g => simp [splitAtSemi]] at h
      cases he : splitAtSemi rest with
      | none => rw [he] at h; simp at h
      | some p =>
        rw [he] at h
        simp at h
        obtain ⟨h1, h2⟩ := ih p.1 p.2 (by rw [he])
        refine ⟨?_, ?_⟩
        · rw [← h.2, ← h.1, h1]; simp
        · rw [← h.1]
          intro hmem
          rcases List.mem_cons.mp hmem with hc | hc
          · exact ht hc.symm
          · exact h2 hc

theorem splitAtSemi_append (e r : List Tok) (he : Tok.id ";" ∉ e) :
    splitAtSemi (e ++ Tok.id ";" :: r) = some (e, r) := by
  induction e with
  | nil => simp [splitAtSemi]
  | cons t ts ih =>
    have ht : t ≠ Tok.id ";" := fun h => he (by simp [h])
    have ih2 := ih (fun h => he (List.mem_cons_of_mem _ h))
    rw [show splitAtSemi ((t :: ts) ++ Tok.id ";" :: r)
        = (splitAtSemi (ts ++ Tok.id ";" :: r)).map (fun p => (t :: p.1, p.2)) by
      cases t with
      | id s =>
        by_cases hs : s = ";"
        · exact absurd (by rw [hs]) ht
        · simp [splitAtSemi, hs]
      | lit n => simp [splitAtSemi]
      | group b g => simp [splitAtSemi]]
    rw [ih2]
    rfl

theorem splitAtSemi_none (ts : List Tok) (h : Tok.id ";" ∉ ts) :
    splitAtSemi ts = none := by
  induction ts with
  | nil => simp [splitAtSemi]
  | cons t rest ih =>
    have ht : t ≠ Tok.id ";" := fun hc => h (by simp [hc])
    have ih2 := ih (fun hc => h (List.mem_cons_of_mem _ hc))
    rw [show splitAtSemi (t :: rest) = (splitAtSemi rest).map (fun p => (t :: p.1, p.2)) by
      cases t with
      | id s =>
        by_cases hs : s = ";"
        · exact absurd (by rw [hs]) ht
        · simp [splitAtSemi, hs]
      | lit n => simp [splitAtSemi]
      | group b g => simp [splitAtSemi]]
    rw [ih2]; rfl

/-- Model of the `$ignore:item` fragment matcher used by `@scan_item`
(`src/lib.rs` line 213): consume tokens up to and including the first
top-level `;` or top-level brace group (every Rust item ends with one of
those), returning the consumed item tokens and the remaining input. -/
def parseItem : List Tok → Option (List Tok × List Tok)
  | [] => none
  | .id ";" :: rest => some ([Tok.id ";"], rest)
  | .group .brace ts :: rest => some ([Tok.group .brace ts], rest)
  | t :: rest => (parseItem rest).map (fun p => (t :: p.1, p.2))

theorem parseItem_spec : ∀ ts i r, parseItem ts = some (i, r) →
    ts = i ++ r ∧ i ≠ [] := by
  intro ts
  induction ts with
  | nil => intro i r h; simp [parseItem] at h
  | cons t rest ih =>
    intro i r h
    by_cases hsem : t = Tok.id ";"
    · subst hsem
      simp [parseItem] at h
      simp [← h.1, ← h.2]
    · by_cases hbr : ∃ g, t = Tok.group .brace g
      · obtain ⟨g, hg⟩ := hbr
        subst hg
        simp [parseItem] at h
        simp [← h.1, ← h.2]
      · rw [show parseItem (t :: rest) = (parseItem rest).map (fun p => (t :: p.1, p.2)) by
          cases t with
          | id s =>
            by_cases hs : s = ";"
            · exact absurd (by rw [hs]) hsem
            · simp [parseItem, hs]
          | lit n => simp [parseItem]
          | group b g =>
            cases b with
            | brace => exact absurd ⟨g, rfl⟩ hbr
            | paren => simp [parseItem]
            | square => simp [parseItem]] at h
        cases he : parseItem rest with
        | none => rw [he] at h; simp at h
        | some p =>
          rw [he] at h
          simp at h
          obtain ⟨h1, _⟩ := ih p.1 p.2 (by rw [he])
          constructor
          · rw [← h.2, ← h.1]; simp [h1]
          · rw [← h.1]; simp

/-- The loop-shape tag threaded through the scan: `()` for a bare block,
`(loop)` for the loop entry point (`src/lib.rs` lines 299, 315). -/
inductive LoopTag where
  | bare
  | loopShape
deriving DecidableEq, Repr

/-- The tokens emitted for `block!(@error $err);` — the named construct that
forces a compile-time failure (`src/lib.rs` lines 84-87), left in the output
as a nested macro invocation exactly as the `@scan` rules emit it. -/
def errorCall (name : String) : List Tok :=
  [Tok.id "block", Tok.id "!", Tok.group .paren [Tok.id "@", Tok.id "error", Tok.id name], Tok.id ";"]

/-- One suspended enclosing scan level on the context stack: the bracket kind
to restore, the remaining un-scanned input at the point of descent, and the
output accumulated before descent (`src/lib.rs` lines 273-284 push
`($paren ($($tail)*) -> $out $stack)`). -/
structure Frame where
  paren : Brack
  tail : List Tok
  out : List Tok
deriving DecidableEq, Repr

/-- The full argument list of one `@scan` invocation
(`src/lib.rs`: `@scan $paren $life $ret ($input) -> ($out) ($frames $lp $init)`). -/
structure ScanState where
  paren : Brack
  life : Tok
  ret : String
  input : List Tok
  out : List Tok
  frames : List Frame
  lp : LoopTag
  init : List Tok
deriving DecidableEq, Repr

/-- What one scanner rule does to a nonempty input: emit some output tokens
and continue with a given remaining input (possibly clearing the slot
initializer), descend into a bracket group, or fail to match any rule. -/
inductive ScanAct where
  | emit (ts : List Tok) (rest : List Tok) (clearInit : Bool)
  | enter (b : Brack) (inner : List Tok) (tail : List Tok)
  | stuckA
deriving DecidableEq, Repr

/-- Keywords that head an item and route the input to `@scan_item`
(`src/lib.rs` lines 226-270; `unsafe` is handled separately). -/
def isItemKw (s : String) : Bool :=
  ["pub", "use", "extern", "mod", "static", "const", "trait", "impl",
   "fn", "type", "enum", "struct"].contains s

/-- Route the whole remaining input through the `$ignore:item` matcher
(`@scan_item`, `src/lib.rs` lines 213-215): the parsed item is copied to the
output verbatim, scanning resumes after it; if the tokens do not form an
item, no macro rule matches. -/
def itemOf (ts : List Tok) : ScanAct :=
  match parseItem ts with
  | some p => .emit p.1 p.2 false
  | none => .stuckA

/-- The scanner's transition table for a nonempty input `t :: rest`, with the
rules in the priority order of `src/lib.rs` lines 154-289.  `life` is the
block's own label, `ret` the result-slot name, `lp` the loop-shape tag.
Label equality (`static_cond!`) is token equality. -/
def classify (life : Tok) (ret : String) (lp : LoopTag) (t : Tok) (rest : List Tok) : ScanAct :=
  match t, rest with
  -- bare `break` / `continue`, lines 154-165: always substitute an error
  | .id "break", [] => .emit (errorCall "NoBareBreakInNamedBlock") [] false
  | .id "break", .id ";" :: tail => .emit (errorCall "NoBareBreakInNamedBlock") tail false
  | .id "continue", [] => .emit (errorCall "NoBareContinueInNamedBlock") [] false
  | .id "continue", .id ";" :: tail => .emit (errorCall "NoBareContinueInNamedBlock") tail false
  -- `break LIFETIME;` (no EXPR), lines 166-169: pass through unchanged
  | .id "break", l2 :: .id ";" :: tail => .emit [Tok.id "break", l2, Tok.id ";"] tail false
  -- `break LIFETIME EXPR` with/without `;`, lines 170-189; both branches of
  -- the `static_cond!` replace `$init` with `()`
  | .id "break", l2 :: rest2 =>
    match splitAtSemi rest2 with
    | some (e, tail) =>
      if life = l2 then
        .emit [Tok.group .brace ([Tok.id ret, Tok.id "="] ++ e
               ++ [Tok.id ";", Tok.id "break", l2, Tok.id ";"])] tail true
      else
        .emit ([Tok.id "break", l2] ++ e ++ [Tok.id ";"]) tail true
    | none =>
      match rest2 with
      | [] => .emit [Tok.id "break"] (l2 :: rest2) false  -- no break rule matches: fall-through
      | _ :: _ =>
        if life = l2 then
          .emit [Tok.group .brace ([Tok.id ret, Tok.id "="] ++ rest2
                 ++ [Tok.id ";", Tok.id "break", l2])] [] true
        else
          .emit ([Tok.id "break", l2] ++ rest2 ++ [Tok.id ";"]) [] true
  -- `continue LIFETIME;`, lines 190-200: only matches under the bare-block tag
  | .id "continue", l2 :: .id ";" :: tail =>
    match lp with
    | .bare =>
      if life = l2 then .emit (errorCall "NoMatchedContinueInNamedBlock") tail false
      else .emit [Tok.id "continue", l2, Tok.id ";"] tail false
    | .loopShape => .emit [Tok.id "continue"] (l2 :: Tok.id ";" :: tail) false  -- fall-through
  -- `continue LIFETIME` (end of input), lines 201-209: matches ANY stack/tag
  | .id "continue", [l2] =>
    if life = l2 then .emit (errorCall "NoMatchedContinueInNamedBlock") [] false
    else .emit [Tok.id "continue", l2, Tok.id ";"] [] false
  | .id "continue", rest2 => .emit [Tok.id "continue"] rest2 false  -- fall-through
  -- `#[block(ignore)] $ignore:tt`, lines 218-220: emit the single token only
  | .id "#", .group .square [.id "block", .group .paren [.id "ignore"]] :: ig :: tail =>
    .emit [ig] tail false
  -- other attributes pass through, lines 222-224
  | .id "#", .group .square attr :: tail =>
    .emit [Tok.id "#", Tok.group .square attr] tail false
  -- `unsafe trait` / `unsafe impl` / `unsafe fn`, lines 247-260
  | .id "unsafe", .id "trait" :: rest2 => itemOf (Tok.id "unsafe" :: Tok.id "trait" :: rest2)
  | .id "unsafe", .id "impl" :: rest2 => itemOf (Tok.id "unsafe" :: Tok.id "impl" :: rest2)
  | .id "unsafe", .id "fn" :: rest2 => itemOf (Tok.id "unsafe" :: Tok.id "fn" :: rest2)
  -- item keywords, lines 226-270
  | .id s, _ =>
    if isItemKw s then itemOf (Tok.id s :: rest)
    else .emit [Tok.id s] rest false  -- fall-through, lines 287-289
  -- descend into a bracket group, lines 273-284
  | .group b inner, _ => .enter b inner rest
  -- fall-through for any other single token, lines 287-289
  | t2, _ => .emit [t2] rest false

/-- Result of one scanner transition. -/
inductive StepRes where
  | done (t : Tok)
  | stuck
  | next (s : ScanState)
deriving DecidableEq, Repr

/-- The final output templates (`@wrap`, `src/lib.rs` lines 97-117).
Bare block: `{ let ret INIT; life: loop { ret = { OUT }; break life; } ret }`.
Loop: `{ let ret INIT; life: loop { { OUT }; } ret }`. -/
def wrap (life : Tok) (lp : LoopTag) (ret : String) (init : List Tok) (out : List Tok) : Tok :=
  match lp with
  | .bare =>
    Tok.group .brace
      ([Tok.id "let", Tok.id ret] ++ init ++ [Tok.id ";", life, Tok.id ":", Tok.id "loop",
        Tok.group .brace [Tok.id ret, Tok.id "=", Tok.group .brace out, Tok.id ";",
          Tok.id "break", life, Tok.id ";"],
        Tok.id ret])
  | .loopShape =>
    Tok.group .brace
      ([Tok.id "let", Tok.id ret] ++ init ++ [Tok.id ";", life, Tok.id ":", Tok.id "loop",
        Tok.group .brace [Tok.group .brace out, Tok.id ";"],
        Tok.id ret])

/-- One transition of the scanner, i.e. one `block!` macro-rule application
(`@up`, the single rule at `src/lib.rs` lines 293-295, is fused into the
ascent case).  End of input with an empty stack and a brace context emits the
final expansion (line 134); end of input with a nonempty stack pops a frame
(lines 138-148 plus `@up`); otherwise `classify` applies the matching rule. -/
def step (s : ScanState) : StepRes :=
  match s.input with
  | [] =>
    match s.frames with
    | [] =>
      if s.paren = Brack.brace then .done (wrap s.life s.lp s.ret s.init s.out)
      else .stuck
    | f :: rest =>
      .next { s with paren := f.paren, input := f.tail, out := f.out ++ [Tok.group s.paren s.out], frames := rest }
  | t :: rest =>
    match classify s.life s.ret s.lp t rest with
    | .stuckA => .stuck
    | .emit ts rest2 c =>
      .next { s with input := rest2, out := s.out ++ ts, init := if c then [] else s.init }
    | .enter b inner tail =>
      .next { s with paren := b, input := inner, out := [], frames := ⟨s.paren, tail, s.out⟩ :: s.frames }

/-- Fuel-indexed scanner run: `none` means the fuel (the host's
macro-recursion budget) ran out, `some none` means no macro rule matched,
`some (some t)` is the final expansion. -/
def scanF : Nat → ScanState → Option (Option Tok)
  | 0, _ => none
  | n + 1, s =>
    match step s with
    | .done t => some (some t)
    | .stuck => some none
    | .next s2 => scanF n s2

/-- Termination measure for the scanner: twice the size of the remaining
input plus, for each stack frame, twice the size of its pending tail plus
one. -/
def measFrames : List Frame → Nat
  | [] => 0
  | f :: rest => 2 * sizeL f.tail + 1 + measFrames rest

/-- Termination measure of a scan state. -/
def meas (s : ScanState) : Nat := 2 * sizeL s.input + measFrames s.frames

/-- Entry point for a bare block (`src/lib.rs` lines 298-311):
`block!(@scan {} $life _ret ($body) -> () (() () ()))`. -/
def entryBare (life : Tok) (body : List Tok) : ScanState :=
  ⟨.brace, life, "_ret", body, [], [], .bare, []⟩

/-- Entry point for a loop (`src/lib.rs` lines 314-316):
`block!(@scan {} $life _ret ($body) -> () (() (loop) (= ())))`. -/
def entryLoop (life : Tok) (body : List Tok) : ScanState :=
  ⟨.brace, life, "_ret", body, [], [], .loopShape, [Tok.id "=", Tok.group .paren []]⟩

theorem sizeL_pos_of_ne_nil (ts : List Tok) (h : ts ≠ []) : 1 ≤ sizeL ts := by
  cases ts with
  | nil => exact absurd rfl h
  | cons t ts => have := sizeT_pos t; simp [sizeL]; omega

theorem itemOf_emit (ts xs rest2 : List Tok) (c : Bool)
    (h : itemOf ts = ScanAct.emit xs rest2 c) :
    ts = xs ++ rest2 ∧ xs ≠ [] := by
  unfold itemOf at h
  cases hp : parseItem ts with
  | none => rw [hp] at h; exact absurd h (by simp)
  | some p =>
    rw [hp] at h
    injection h with h1 h2 h3
    subst h1; subst h2
    exact parseItem_spec ts _ _ (by rw [hp])

theorem classify_emit_size (life : Tok) (ret : String) (lp : LoopTag) (t : Tok)
    (rest ts rest2 : List Tok) (c : Bool)
    (h : classify life ret lp t rest = ScanAct.emit ts rest2 c) :
    sizeL rest2 < sizeT t + sizeL rest := by
  have hpos := sizeT_pos t
  unfold classify at h
  split at h
  all_goals repeat (split at h)
  all_goals try (cases h)
  all_goals try (simp [sizeL, sizeT, errorCall] <;> omega)
  -- two `break LIFETIME EXPR ;` cases (the `static_cond!` branches)
  · rename_i e hl heq
    rw [(splitAtSemi_spec _ _ _ heq).1]
    simp [sizeL, sizeT, sizeL_append] <;> omega
  · rename_i e hl heq
    rw [(splitAtSemi_spec _ _ _ heq).1]
    simp [sizeL, sizeT, sizeL_append] <;> omega
  -- `break LIFETIME EXPR` with no `;` (nested match on the remaining tokens)
  · rename_i l2 rest2x p q op heq
    cases rest2x with
    | nil => cases h; simp [sizeL, sizeT] <;> omega
    | cons hd tl =>
      by_cases hl : life = l2
      · rw [if_pos hl] at h
        injection h with a b c2
        subst b
        simp [sizeL, sizeT] <;> omega
      · rw [if_neg hl] at h
        injection h with a b c2
        subst b
        simp [sizeL, sizeT] <;> omega
  -- the four `@scan_item` routes
  all_goals (
    rcases itemOf_emit _ _ _ _ h with ⟨he, hne⟩
    have h2 := sizeL_pos_of_ne_nil ts hne
    have h1 := congrArg sizeL he
    rw [sizeL_append] at h1
    simp [sizeL, sizeT] at h1 ⊢
    omega)

theorem classify_enter (life : Tok) (ret : String) (lp : LoopTag) (t : Tok)
    (rest : List Tok) (b : Brack) (inner tail : List Tok)
    (h : classify life ret lp t rest = ScanAct.enter b inner tail) :
    t = Tok.group b inner ∧ tail = rest := by
  unfold classify at h
  split at h
  all_goals try (unfold itemOf at h)
  all_goals repeat (split at h)
  all_goals try (cases h)
  all_goals try exact ⟨rfl, rfl⟩
  -- `break LIFETIME EXPR` with no `;` (nested match on the remaining tokens)
  · rename_i l2 rest2x p q op heq
    cases rest2x with
    | nil => cases h
    | cons hd tl =>
      by_cases hl : life = l2
      · rw [if_pos hl] at h; cases h
      · rw [if_neg hl] at h; cases h

/-- Every scanner transition strictly decreases the measure. -/
theorem step_meas : ∀ s s2 : ScanState, step s = StepRes.next s2 → meas s2 < meas s := by
  intro ⟨paren, life, ret, input, out, frames, lp, init⟩ s2 h
  cases input with
  | nil =>
    cases frames with
    | nil =>
      simp only [step] at h
      split at h <;> cases h
    | cons f rest =>
      simp only [step] at h
      cases h
      simp [meas, measFrames, sizeL]
  | cons t rest =>
    simp only [step] at h
    cases hc : classify life ret lp t rest with
    | stuckA => rw [hc] at h; cases h
    | emit ts rest2 c =>
      rw [hc] at h
      cases h
      have hb := classify_emit_size _ _ _ _ _ _ _ _ hc
      simp [meas, sizeL]
      omega
    | enter b inner tail =>
      rw [hc] at h
      cases h
      obtain ⟨ht, htl⟩ := classify_enter _ _ _ _ _ _ _ _ hc
      subst ht; subst htl
      simp [meas, measFrames, sizeL, sizeT]
      omega

/-- With fuel exceeding the measure, the scanner never runs out of fuel: it
reaches either the terminal emission or a no-rule-matches failure. -/
theorem scanF_adequate : ∀ n s, meas s < n → scanF n s ≠ none := by
  intro n
  induction n with
  | zero => intro s h; omega
  | succ n ih =>
    intro s h
    simp only [scanF]
    cases hs : step s with
    | done t => simp
    | stuck => simp
    | next s2 =>
      have h2 := step_meas _ _ hs
      exact ih s2 (by omega)

theorem scanF_mono : ∀ n s r, scanF n s = some r → scanF (n + 1) s = some r := by
  intro n
  induction n with
  | zero => intro s r h; simp [scanF] at h
  | succ n ih =>
    intro s r h
    simp only [scanF] at h ⊢
    cases hs : step s with
    | done t => rw [hs] at h; exact h
    | stuck => rw [hs] at h; exact h
    | next s2 => rw [hs] at h; exact ih s2 r h

/-- Fuel irrelevance: once the scanner completes within some budget, any
larger budget produces the same result. -/
theorem scanF_le (n m : Nat) (s : ScanState) (r : Option Tok) (hnm : n ≤ m)
    (h : scanF n s = some r) : scanF m s = some r := by
  induction hnm with
  | refl => exact h
  | step ih2 ih => exact scanF_mono _ _ _ ih

/-- The total scan: run the machine with fuel `meas s + 1` (always enough by
`scanF_adequate`).  `none` means the macro got stuck (no rule matched). -/
def runScan (s : ScanState) : Option Tok :=
  match scanF (meas s + 1) s with
  | some (some t) => some t
  | _ => none

theorem scanF_unfold_next (n : Nat) (s s2 : ScanState) (hs : step s = StepRes.next s2) :
    scanF (n + 1) s = scanF n s2 := by
  simp only [scanF]
  rw [hs]

theorem runScan_next (s s2 : ScanState) (hs : step s = StepRes.next s2) :
    runScan s = runScan s2 := by
  have hm := step_meas _ _ hs
  have hne := scanF_adequate (meas s2 + 1) s2 (by omega)
  cases hr : scanF (meas s2 + 1) s2 with
  | none => exact absurd hr hne
  | some r2 =>
    have h1 : scanF (meas s) s2 = some r2 := scanF_le _ _ _ _ (by omega) hr
    unfold runScan
    rw [scanF_unfold_next (meas s) s s2 hs, h1, hr]

theorem runScan_done (s : ScanState) (t : Tok) (hs : step s = StepRes.done t) :
    runScan s = some t := by
  unfold runScan
  simp only [scanF]
  rw [hs]

theorem runScan_stuck (s : ScanState) (hs : step s = StepRes.stuck) :
    runScan s = none := by
  unfold runScan
  simp only [scanF]
  rw [hs]

/-- The full expansion of `block!($life: { $body })`. -/
def blockBare (life : Tok) (body : List Tok) : Option Tok :=
  runScan (entryBare life body)

/-- The full expansion of `block!($life: loop { $body })`. -/
def blockLoop (life : Tok) (body : List Tok) : Option Tok :=
  runScan (entryLoop life body)

/-- Structurally recursive restatement of the scanner on one nesting level:
returns the rewritten token list and whether some `break LIFETIME EXPR` rule
cleared the slot initializer.  Proved equivalent to the stack machine below
(`runScan_eq_rwRun`); used for compositional reasoning about whole scans. -/
def rwCore (life : Tok) (ret : String) (lp : LoopTag) : List Tok → Option (List Tok × Bool)
  | [] => some ([], false)
  | t :: rest =>
    match hc : classify life ret lp t rest with
    | .stuckA => none
    | .emit ts rest2 c =>
      match rwCore life ret lp rest2 with
      | none => none
      | some p => some (ts ++ p.1, c || p.2)
    | .enter b inner tail =>
      match rwCore life ret lp inner, rwCore life ret lp tail with
      | some pi, some pt => some (Tok.group b pi.1 :: pt.1, pi.2 || pt.2)
      | _, _ => none
termination_by ts => sizeL ts
decreasing_by
  all_goals first
  | (have hb := classify_emit_size _ _ _ _ _ _ _ _ hc
     simp [sizeL] <;> omega)
  | (obtain ⟨ht, htl⟩ := classify_enter _ _ _ _ _ _ _ _ hc
     subst ht
     first
     | (subst htl
        simp [sizeL, sizeT] <;> omega)
     | (simp [sizeL, sizeT] <;> omega))

theorem rwCore_nil (life : Tok) (ret : String) (lp : LoopTag) :
    rwCore life ret lp [] = some ([], false) := by
  simp [rwCore]

theorem rwCore_stuck (life : Tok) (ret : String) (lp : LoopTag) (t : Tok)
    (rest : List Tok) (hc : classify life ret lp t rest = ScanAct.stuckA) :
    rwCore life ret lp (t :: rest) = none := by
  rw [rwCore]
  split
  · rfl
  · rename_i ts2 rest3 c2 h2; rw [hc] at h2; cases h2
  · rename_i b inner tail h2; rw [hc] at h2; cases h2

theorem rwCore_emit (life : Tok) (ret : String) (lp : LoopTag) (t : Tok)
    (rest ts rest2 : List Tok) (c : Bool)
    (hc : classify life ret lp t rest = ScanAct.emit ts rest2 c) :
    rwCore life ret lp (t :: rest)
      = match rwCore life ret lp rest2 with
        | none => none
        | some p => some (ts ++ p.1, c || p.2) := by
  rw [rwCore]
  split
  · rename_i h2; rw [hc] at h2; cases h2
  · rename_i ts2 rest3 c2 h2
    rw [hc] at h2
    cases h2
    rfl
  · rename_i b inner tail h2
    rw [hc] at h2
    cases h2

theorem rwCore_enter (life : Tok) (ret : String) (lp : LoopTag) (t : Tok)
    (rest : List Tok) (b : Brack) (inner tail : List Tok)
    (hc : classify life ret lp t rest = ScanAct.enter b inner tail) :
    rwCore life ret lp (t :: rest)
      = match rwCore life ret lp inner, rwCore life ret lp tail with
        | some pi, some pt => some (Tok.group b pi.1 :: pt.1, pi.2 || pt.2)
        | _, _ => none := by
  rw [rwCore]
  split
  · rename_i h2; rw [hc] at h2; cases h2
  · rename_i ts2 rest3 c2 h2; rw [hc] at h2; cases h2
  · rename_i b2 inner2 tail2 h2
    rw [hc] at h2
    cases h2
    rfl


/-- Unwind the context stack after the current nesting level has been fully
rewritten into `acc`: rebuild each suspended level (what the machine's pop
rules do, `src/lib.rs` lines 138-148 and 293-295), rewriting each frame's
pending tail with `rwCore`, then apply the `@wrap` template.  `cleared`
records whether some `break LIFETIME EXPR` rule has cleared the slot
initializer so far. -/
def rwUnwind (life : Tok) (ret : String) (lp : LoopTag) : List Frame → List Tok → Brack → List Tok → Bool → Option Tok
  | [], init, paren, acc, cleared =>
    if paren = Brack.brace then some (wrap life lp ret (if cleared then [] else init) acc)
    else none
  | f :: rest, init, paren, acc, cleared =>
    match rwCore life ret lp f.tail with
    | none => none
    | some p =>
      rwUnwind life ret lp rest init f.paren (f.out ++ [Tok.group paren acc] ++ p.1) (cleared || p.2)

/-- Finish a whole scan from the middle of a state, structurally: rewrite the
current level with `rwCore`, then unwind the saved frames.  `none` models a
stuck macro.  Proved equal to the machine in `runScan_eq_rwAll`. -/
def rwAll (life : Tok) (ret : String) (lp : LoopTag) (frames : List Frame)
    (init : List Tok) (paren : Brack) (input out : List Tok) : Option Tok :=
  match rwCore life ret lp input with
  | none => none
  | some p => rwUnwind life ret lp frames init paren (out ++ p.1) p.2

/-- Pre-clearing the initializer commutes with accumulating the cleared flag. -/
theorem rwUnwind_clear (life : Tok) (ret : String) (lp : LoopTag) :
    ∀ (frames : List Frame) (init : List Tok) (paren : Brack) (acc : List Tok) (c c2 : Bool),
    rwUnwind life ret lp frames (if c then [] else init) paren acc c2
      = rwUnwind life ret lp frames init paren acc (c || c2) := by
  intro frames
  induction frames with
  | nil =>
    intro init paren acc c c2
    simp only [rwUnwind]
    cases c <;> cases c2 <;> simp
  | cons f rest ih =>
    intro init paren acc c c2
    simp only [rwUnwind]
    cases rwCore life ret lp f.tail with
    | none => rfl
    | some p =>
      simp only []
      rw [ih]
      cases c <;> cases c2 <;> cases p.2 <;> rfl

theorem rwAll_emit (life : Tok) (ret : String) (lp : LoopTag) (frames : List Frame)
    (init : List Tok) (paren : Brack) (t : Tok) (rest out ts rest2 : List Tok) (c : Bool)
    (hc : classify life ret lp t rest = ScanAct.emit ts rest2 c) :
    rwAll life ret lp frames init paren (t :: rest) out
      = rwAll life ret lp frames (if c then [] else init) paren rest2 (out ++ ts) := by
  unfold rwAll
  rw [rwCore_emit life ret lp t rest ts rest2 c hc]
  cases hr : rwCore life ret lp rest2 with
  | none => rfl
  | some p =>
    simp only []
    rw [rwUnwind_clear]
    have : out ++ (ts ++ p.1) = (out ++ ts) ++ p.1 := by simp
    rw [this]

theorem rwAll_enter (life : Tok) (ret : String) (lp : LoopTag) (frames : List Frame)
    (init : List Tok) (paren : Brack) (t : Tok) (rest out : List Tok)
    (b : Brack) (inner tail : List Tok)
    (hc : classify life ret lp t rest = ScanAct.enter b inner tail) :
    rwAll life ret lp frames init paren (t :: rest) out
      = rwAll life ret lp (⟨paren, tail, out⟩ :: frames) init b inner [] := by
  obtain ⟨ht, htl⟩ := classify_enter _ _ _ _ _ _ _ _ hc
  subst htl
  unfold rwAll
  rw [rwCore_enter life ret lp t tail b inner tail hc]
  cases hi : rwCore life ret lp inner with
  | none =>
    cases ht2 : rwCore life ret lp tail <;> rfl
  | some pi =>
    cases ht2 : rwCore life ret lp tail with
    | none =>
      simp only [rwUnwind, ht2]
    | some pt =>
      simp only [rwUnwind, ht2]
      simp

theorem rwAll_pop (life : Tok) (ret : String) (lp : LoopTag) (f : Frame)
    (frames : List Frame) (init : List Tok) (paren : Brack) (out : List Tok) :
    rwAll life ret lp (f :: frames) init paren [] out
      = rwAll life ret lp frames init f.paren f.tail (f.out ++ [Tok.group paren out]) := by
  unfold rwAll
  rw [rwCore_nil]
  simp only [rwUnwind]
  cases hr : rwCore life ret lp f.tail with
  | none => rfl
  | some p =>
    simp only []
    simp

/-- The stack machine and the structural rewriter agree: running the scanner
from any state gives the same expansion as rewriting the current level and
unwinding the saved frames. -/
theorem runScan_eq_rwAll (s : ScanState) :
    runScan s = rwAll s.life s.ret s.lp s.frames s.init s.paren s.input s.out := by
  have H : ∀ n (s2 : ScanState), meas s2 = n →
      runScan s2 = rwAll s2.life s2.ret s2.lp s2.frames s2.init s2.paren s2.input s2.out := by
    intro n
    induction n using Nat.strong_induction_on with
    | _ n ih =>
      intro s2 hn
      obtain ⟨pn, life, ret, input, out, frames, lp, init⟩ := s2
      cases input with
      | nil =>
        cases frames with
        | nil =>
          by_cases hp : pn = Brack.brace
          · subst hp
            rw [runScan_done ⟨Brack.brace, life, ret, [], out, [], lp, init⟩
              (wrap life lp ret init out) rfl]
            simp [rwAll, rwCore_nil, rwUnwind]
          · rw [runScan_stuck ⟨pn, life, ret, [], out, [], lp, init⟩ (by simp [step, hp])]
            simp [rwAll, rwCore_nil, rwUnwind, hp]
        | cons f rest =>
          have hstep : step ⟨pn, life, ret, [], out, f :: rest, lp, init⟩
              = StepRes.next ⟨f.paren, life, ret, f.tail, f.out ++ [Tok.group pn out], rest, lp, init⟩ := rfl
          rw [runScan_next _ _ hstep]
          rw [ih (meas ⟨f.paren, life, ret, f.tail, f.out ++ [Tok.group pn out], rest, lp, init⟩)
            (by rw [← hn]; exact step_meas _ _ hstep) _ rfl]
          exact (rwAll_pop life ret lp f rest init pn out).symm
      | cons t rest =>
        cases hc : classify life ret lp t rest with
        | stuckA =>
          have hstep : step ⟨pn, life, ret, t :: rest, out, frames, lp, init⟩ = StepRes.stuck := by
            simp [step, hc]
          rw [runScan_stuck _ hstep]
          unfold rwAll
          rw [rwCore_stuck life ret lp t rest hc]
        | emit ts rest2 c =>
          have hstep : step ⟨pn, life, ret, t :: rest, out, frames, lp, init⟩
              = StepRes.next ⟨pn, life, ret, rest2, out ++ ts, frames, lp, if c then [] else init⟩ := by
            simp [step, hc]
          rw [runScan_next _ _ hstep]
          rw [ih (meas ⟨pn, life, ret, rest2, out ++ ts, frames, lp, if c then [] else init⟩)
            (by rw [← hn]; exact step_meas _ _ hstep) _ rfl]
          exact (rwAll_emit life ret lp frames init pn t rest out ts rest2 c hc).symm
        | enter b inner tail =>
          have hstep : step ⟨pn, life, ret, t :: rest, out, frames, lp, init⟩
              = StepRes.next ⟨b, life, ret, inner, [], ⟨pn, tail, out⟩ :: frames, lp, init⟩ := by
            simp [step, hc]
          rw [runScan_next _ _ hstep]
          rw [ih (meas ⟨b, life, ret, inner, [], ⟨pn, tail, out⟩ :: frames, lp, init⟩)
            (by rw [← hn]; exact step_meas _ _ hstep) _ rfl]
          exact (rwAll_enter life ret lp frames init pn t rest out b inner tail hc).symm
  exact H (meas s) s rfl

theorem classify_break_life_semi (life : Tok) (ret : String) (lp : LoopTag) (l2 : Tok)
    (tail : List Tok) (hl : l2 ≠ Tok.id ";") :
    classify life ret lp (Tok.id "break") (l2 :: Tok.id ";" :: tail)
      = ScanAct.emit [Tok.id "break", l2, Tok.id ";"] tail false := by
  unfold classify
  split
  all_goals try simp_all
  rename_i hne heq
  exact absurd heq.2.symm (hne tail)


theorem classify_break_bare (life : Tok) (ret : String) (lp : LoopTag) :
    classify life ret lp (Tok.id "break") []
      = ScanAct.emit (errorCall "NoBareBreakInNamedBlock") [] false := rfl

theorem classify_break_bare_semi (life : Tok) (ret : String) (lp : LoopTag) (tail : List Tok) :
    classify life ret lp (Tok.id "break") (Tok.id ";" :: tail)
      = ScanAct.emit (errorCall "NoBareBreakInNamedBlock") tail false := by
  unfold classify
  split
  all_goals simp_all

theorem classify_continue_bare (life : Tok) (ret : String) (lp : LoopTag) :
    classify life ret lp (Tok.id "continue") []
      = ScanAct.emit (errorCall "NoBareContinueInNamedBlock") [] false := rfl

theorem classify_continue_bare_semi (life : Tok) (ret : String) (lp : LoopTag) (tail : List Tok) :
    classify life ret lp (Tok.id "continue") (Tok.id ";" :: tail)
      = ScanAct.emit (errorCall "NoBareContinueInNamedBlock") tail false := by
  unfold classify
  split
  all_goals simp_all

theorem ne_semi_head (e tl tail : List Tok) (he : e ≠ []) (hsem : Tok.id ";" ∉ e) :
    e ++ Tok.id ";" :: tail ≠ Tok.id ";" :: tl := by
  cases e with
  | nil => exact absurd rfl he
  | cons x e2 =>
    intro hcontra
    simp at hcontra
    exact hsem (by simp [hcontra.1])

theorem classify_break_expr_semi_eq (life : Tok) (ret : String) (lp : LoopTag) (l2 : Tok)
    (e tail : List Tok) (hl : l2 ≠ Tok.id ";") (he : e ≠ []) (hsem : Tok.id ";" ∉ e)
    (hmatch : life = l2) :
    classify life ret lp (Tok.id "break") (l2 :: (e ++ Tok.id ";" :: tail))
      = ScanAct.emit [Tok.group .brace ([Tok.id ret, Tok.id "="] ++ e
          ++ [Tok.id ";", Tok.id "break", l2, Tok.id ";"])] tail true := by
  unfold classify
  split
  all_goals try simp_all
  · rename_i hx heq
    exact absurd heq.2 (ne_semi_head e _ tail he hsem)
  · rename_i hx1 hx2 heq
    obtain ⟨h1, h2⟩ := heq
    subst h2
    rw [splitAtSemi_append e tail hsem]

theorem classify_break_expr_semi_ne (life : Tok) (ret : String) (lp : LoopTag) (l2 : Tok)
    (e tail : List Tok) (hl : l2 ≠ Tok.id ";") (he : e ≠ []) (hsem : Tok.id ";" ∉ e)
    (hmatch : life ≠ l2) :
    classify life ret lp (Tok.id "break") (l2 :: (e ++ Tok.id ";" :: tail))
      = ScanAct.emit ([Tok.id "break", l2] ++ e ++ [Tok.id ";"]) tail true := by
  unfold classify
  split
  all_goals try simp_all
  · rename_i hx heq
    exact absurd heq.2 (ne_semi_head e _ tail he hsem)
  · rename_i hx1 hx2 heq
    obtain ⟨h1, h2⟩ := heq
    subst h2
    rw [splitAtSemi_append e tail hsem]

theorem classify_break_expr_end_eq (life : Tok) (ret : String) (lp : LoopTag) (l2 : Tok)
    (e : List Tok) (hl : l2 ≠ Tok.id ";") (he : e ≠ []) (hsem : Tok.id ";" ∉ e)
    (hmatch : life = l2) :
    classify life ret lp (Tok.id "break") (l2 :: e)
      = ScanAct.emit [Tok.group .brace ([Tok.id ret, Tok.id "="] ++ e
          ++ [Tok.id ";", Tok.id "break", l2])] [] true := by
  unfold classify
  split
  all_goals try simp_all
  rename_i l20 rest20 hl0 hsplit heq
  rw [splitAtSemi_none _ hsem]
  cases rest20 with
  | nil => exact absurd rfl he
  | cons x e2 => rfl

theorem classify_break_expr_end_ne (life : Tok) (ret : String) (lp : LoopTag) (l2 : Tok)
    (e : List Tok) (hl : l2 ≠ Tok.id ";") (he : e ≠ []) (hsem : Tok.id ";" ∉ e)
    (hmatch : life ≠ l2) :
    classify life ret lp (Tok.id "break") (l2 :: e)
      = ScanAct.emit ([Tok.id "break", l2] ++ e ++ [Tok.id ";"]) [] true := by
  unfold classify
  split
  all_goals try simp_all
  rename_i l20 rest20 hl0 hsplit heq
  rw [splitAtSemi_none _ hsem]
  cases rest20 with
  | nil => exact absurd rfl he
  | cons x e2 => rfl

theorem classify_continue_semi_bare_eq (life : Tok) (ret : String) (l2 : Tok)
    (tail : List Tok) (hl : l2 ≠ Tok.id ";") (hmatch : life = l2) :
    classify life ret LoopTag.bare (Tok.id "continue") (l2 :: Tok.id ";" :: tail)
      = ScanAct.emit (errorCall "NoMatchedContinueInNamedBlock") tail false := by
  unfold classify
  split
  all_goals simp_all

theorem classify_continue_semi_bare_ne (life : Tok) (ret : String) (l2 : Tok)
    (tail : List Tok) (hl : l2 ≠ Tok.id ";") (hmatch : life ≠ l2) :
    classify life ret LoopTag.bare (Tok.id "continue") (l2 :: Tok.id ";" :: tail)
      = ScanAct.emit [Tok.id "continue", l2, Tok.id ";"] tail false := by
  unfold classify
  split
  all_goals simp_all

theorem classify_continue_semi_loop (life : Tok) (ret : String) (l2 : Tok)
    (tail : List Tok) (hl : l2 ≠ Tok.id ";") :
    classify life ret LoopTag.loopShape (Tok.id "continue") (l2 :: Tok.id ";" :: tail)
      = ScanAct.emit [Tok.id "continue"] (l2 :: Tok.id ";" :: tail) false := by
  unfold classify
  split
  all_goals simp_all

theorem classify_continue_end_eq (life : Tok) (ret : String) (lp : LoopTag) (l2 : Tok)
    (hl : l2 ≠ Tok.id ";") (hmatch : life = l2) :
    classify life ret lp (Tok.id "continue") [l2]
      = ScanAct.emit (errorCall "NoMatchedContinueInNamedBlock") [] false := by
  unfold classify
  split
  all_goals simp_all

theorem classify_continue_end_ne (life : Tok) (ret : String) (lp : LoopTag) (l2 : Tok)
    (hl : l2 ≠ Tok.id ";") (hmatch : life ≠ l2) :
    classify life ret lp (Tok.id "continue") [l2]
      = ScanAct.emit [Tok.id "continue", l2, Tok.id ";"] [] false := by
  unfold classify
  split
  all_goals simp_all

theorem classify_ignore (life : Tok) (ret : String) (lp : LoopTag) (ig : Tok)
    (tail : List Tok) :
    classify life ret lp (Tok.id "#")
        (Tok.group .square [Tok.id "block", Tok.group .paren [Tok.id "ignore"]] :: ig :: tail)
      = ScanAct.emit [ig] tail false := rfl

theorem classify_attr (life : Tok) (ret : String) (lp : LoopTag) (attr : List Tok)
    (rest2 : List Tok)
    (hattr : attr ≠ [Tok.id "block", Tok.group .paren [Tok.id "ignore"]]) :
    classify life ret lp (Tok.id "#") (Tok.group .square attr :: rest2)
      = ScanAct.emit [Tok.id "#", Tok.group .square attr] rest2 false := by
  unfold classify
  split
  all_goals simp_all

theorem classify_item_kw (life : Tok) (ret : String) (lp : LoopTag) (s : String)
    (rest : List Tok) (hkw : isItemKw s = true) :
    classify life ret lp (Tok.id s) rest = itemOf (Tok.id s :: rest) := by
  unfold classify
  split
  all_goals try simp_all [isItemKw]
  all_goals intros
  all_goals simp_all

theorem classify_unsafe_trait (life : Tok) (ret : String) (lp : LoopTag) (rest2 : List Tok) :
    classify life ret lp (Tok.id "unsafe") (Tok.id "trait" :: rest2)
      = itemOf (Tok.id "unsafe" :: Tok.id "trait" :: rest2) := by
  unfold classify
  split
  all_goals simp_all

theorem classify_unsafe_impl (life : Tok) (ret : String) (lp : LoopTag) (rest2 : List Tok) :
    classify life ret lp (Tok.id "unsafe") (Tok.id "impl" :: rest2)
      = itemOf (Tok.id "unsafe" :: Tok.id "impl" :: rest2) := by
  unfold classify
  split
  all_goals simp_all

theorem classify_unsafe_fn (life : Tok) (ret : String) (lp : LoopTag) (rest2 : List Tok) :
    classify life ret lp (Tok.id "unsafe") (Tok.id "fn" :: rest2)
      = itemOf (Tok.id "unsafe" :: Tok.id "fn" :: rest2) := by
  unfold classify
  split
  all_goals simp_all

theorem classify_plain_id (life : Tok) (ret : String) (lp : LoopTag) (s : String)
    (rest : List Tok) (hb : s ≠ "break") (hco : s ≠ "continue") (hh : s ≠ "#")
    (hu : s ≠ "unsafe") (hkw : isItemKw s = false) :
    classify life ret lp (Tok.id s) rest = ScanAct.emit [Tok.id s] rest false := by
  unfold classify
  split
  all_goals try simp_all [isItemKw]
  all_goals intros
  all_goals simp_all

theorem classify_unsafe_plain (life : Tok) (ret : String) (lp : LoopTag) (rest : List Tok)
    (h1 : ∀ r2, rest ≠ Tok.id "trait" :: r2) (h2 : ∀ r2, rest ≠ Tok.id "impl" :: r2)
    (h3 : ∀ r2, rest ≠ Tok.id "fn" :: r2) :
    classify life ret lp (Tok.id "unsafe") rest = ScanAct.emit [Tok.id "unsafe"] rest false := by
  unfold classify
  split
  all_goals try simp_all [isItemKw]
  all_goals intros
  all_goals try simp_all
  rename_i hdis
  rcases hdis with h|h|h|h|h|h|h|h|h|h|h|h <;> simp_all

theorem classify_lit (life : Tok) (ret : String) (lp : LoopTag) (n : Int) (rest : List Tok) :
    classify life ret lp (Tok.lit n) rest = ScanAct.emit [Tok.lit n] rest false := rfl

theorem classify_group (life : Tok) (ret : String) (lp : LoopTag) (b : Brack)
    (inner rest : List Tok) :
    classify life ret lp (Tok.group b inner) rest = ScanAct.enter b inner rest := rfl

theorem classify_pound_plain (life : Tok) (ret : String) (lp : LoopTag) (rest : List Tok)
    (hng : ∀ a t2, rest ≠ Tok.group .square a :: t2) :
    classify life ret lp (Tok.id "#") rest = ScanAct.emit [Tok.id "#"] rest false := by
  unfold classify
  split
  all_goals try simp_all [isItemKw]
  all_goals intros
  all_goals try simp_all
  rename_i hdis
  rcases hdis with h|h|h|h|h|h|h|h|h|h|h|h <;> simp_all

/-- Bodies on which the scanner is the identity: no `break`/`continue` token
in any scanned position (opaque item interiors are unconstrained, since they
are copied verbatim), no `#[block(ignore)]` marker (which is itself dropped
from the output), and every item-keyword statement parses as an item. -/
def inert : List Tok → Bool
  | [] => true
  | .group _ inner :: rest => inert inner && inert rest
  | .lit _ :: rest => inert rest
  | .id "break" :: _ => false
  | .id "continue" :: _ => false
  | .id "#" :: .group .square attr :: rest =>
    if attr = [Tok.id "block", Tok.group .paren [Tok.id "ignore"]] then false
    else inert rest
  | .id "unsafe" :: .id "trait" :: rest =>
    match hp : parseItem (Tok.id "unsafe" :: Tok.id "trait" :: rest) with
    | some p => inert p.2
    | none => false
  | .id "unsafe" :: .id "impl" :: rest =>
    match hp : parseItem (Tok.id "unsafe" :: Tok.id "impl" :: rest) with
    | some p => inert p.2
    | none => false
  | .id "unsafe" :: .id "fn" :: rest =>
    match hp : parseItem (Tok.id "unsafe" :: Tok.id "fn" :: rest) with
    | some p => inert p.2
    | none => false
  | .id s :: rest =>
    if isItemKw s then
      match hp : parseItem (Tok.id s :: rest) with
      | some p => inert p.2
      | none => false
    else inert rest
termination_by ts => sizeL ts
decreasing_by
  all_goals first
  | (simp [sizeL, sizeT] <;> omega)
  | (obtain ⟨he, hne⟩ := parseItem_spec _ _ _ hp
     have h2 := sizeL_pos_of_ne_nil _ hne
     have h3 := congrArg sizeL he
     rw [sizeL_append] at h3
     simp [sizeL, sizeT] at h3 ⊢
     omega)

/-- On inert bodies the scanner is the identity and never clears the slot
initializer. -/
theorem rwCore_inert (life : Tok) (ret : String) (lp : LoopTag) :
    ∀ ts, inert ts = true → rwCore life ret lp ts = some (ts, false) := by
  intro ts
  induction ts using inert.induct with
  | case1 =>
    intro h
    exact rwCore_nil life ret lp
  | case2 b inner rest ih2 ih1 =>
    intro h
    simp [inert] at h
    rw [rwCore_enter life ret lp _ rest b inner rest (classify_group life ret lp b inner rest)]
    rw [ih2 h.1, ih1 h.2]
    simp
  | case3 n rest ih1 =>
    intro h
    simp [inert] at h
    rw [rwCore_emit life ret lp _ rest [Tok.lit n] rest false (classify_lit life ret lp n rest)]
    rw [ih1 h]
    simp
  | case4 tail =>
    intro h
    simp [inert] at h
  | case5 tail =>
    intro h
    simp [inert] at h
  | case6 rest =>
    intro h
    simp [inert] at h
  | case7 attr rest hattr ih1 =>
    intro h
    simp [inert, hattr] at h
    rw [rwCore_emit life ret lp _ _ [Tok.id "#", Tok.group .square attr] rest false
      (classify_attr life ret lp attr rest hattr)]
    rw [ih1 h]
    simp
  | case8 rest p hp ih1 =>
    intro h
    simp only [inert] at h
    split at h
    case h_2 => simp at h
    rename_i p2 hp2
    rw [hp] at hp2
    injection hp2 with he
    subst he
    have hcl : classify life ret lp (Tok.id "unsafe") (Tok.id "trait" :: rest)
        = ScanAct.emit p.1 p.2 false := by
      rw [classify_unsafe_trait]
      unfold itemOf
      rw [hp]
    rw [rwCore_emit life ret lp _ _ p.1 p.2 false hcl]
    rw [ih1 h]
    have hs := parseItem_spec _ _ _ hp
    simp [← hs.1]
  | case9 rest hp =>
    intro h
    simp only [inert] at h
    split at h
    case h_2 => simp at h
    rename_i p2 hp2
    rw [hp] at hp2
    cases hp2
  | case10 rest p hp ih1 =>
    intro h
    simp only [inert] at h
    split at h
    case h_2 => simp at h
    rename_i p2 hp2
    rw [hp] at hp2
    injection hp2 with he
    subst he
    have hcl : classify life ret lp (Tok.id "unsafe") (Tok.id "impl" :: rest)
        = ScanAct.emit p.1 p.2 false := by
      rw [classify_unsafe_impl]
      unfold itemOf
      rw [hp]
    rw [rwCore_emit life ret lp _ _ p.1 p.2 false hcl]
    rw [ih1 h]
    have hs := parseItem_spec _ _ _ hp
    simp [← hs.1]
  | case11 rest hp =>
    intro h
    simp only [inert] at h
    split at h
    case h_2 => simp at h
    rename_i p2 hp2
    rw [hp] at hp2
    cases hp2
  | case12 rest p hp ih1 =>
    intro h
    simp only [inert] at h
    split at h
    case h_2 => simp at h
    rename_i p2 hp2
    rw [hp] at hp2
    injection hp2 with he
    subst he
    have hcl : classify life ret lp (Tok.id "unsafe") (Tok.id "fn" :: rest)
        = ScanAct.emit p.1 p.2 false := by
      rw [classify_unsafe_fn]
      unfold itemOf
      rw [hp]
    rw [rwCore_emit life ret lp _ _ p.1 p.2 false hcl]
    rw [ih1 h]
    have hs := parseItem_spec _ _ _ hp
    simp [← hs.1]
  | case13 rest hp =>
    intro h
    simp only [inert] at h
    split at h
    case h_2 => simp at h
    rename_i p2 hp2
    rw [hp] at hp2
    cases hp2
  | case14 s rest hb hco hha hu1 hu2 hu3 hkw p hp ih1 =>
    intro h
    simp only [inert, hkw, if_true] at h
    split at h
    case h_2 => simp at h
    rename_i p2 hp2
    rw [hp] at hp2
    injection hp2 with he
    subst he
    have hcl : classify life ret lp (Tok.id s) rest = ScanAct.emit p.1 p.2 false := by
      rw [classify_item_kw life ret lp s rest hkw]
      unfold itemOf
      rw [hp]
    rw [rwCore_emit life ret lp _ _ p.1 p.2 false hcl]
    rw [ih1 h]
    have hs := parseItem_spec _ _ _ hp
    simp [← hs.1]
  | case15 s rest hb hco hha hu1 hu2 hu3 hkw hp =>
    intro h
    simp only [inert, hkw, if_true] at h
    split at h
    case h_2 => simp at h
    rename_i p2 hp2
    rw [hp] at hp2
    cases hp2
  | case16 s rest hb hco hha hu1 hu2 hu3 hkw ih1 =>
    intro h
    have hkw2 : isItemKw s = false := by
      cases hiw : isItemKw s with
      | false => rfl
      | true => exact absurd hiw hkw
    simp [inert, hkw2] at h
    have hcl : classify life ret lp (Tok.id s) rest = ScanAct.emit [Tok.id s] rest false := by
      by_cases hsh : s = "#"
      · subst hsh
        exact classify_pound_plain life ret lp rest (fun a t2 hr => hha a t2 rfl hr)
      · by_cases hsu : s = "unsafe"
        · subst hsu
          exact classify_unsafe_plain life ret lp rest
            (fun r2 hr => hu1 r2 rfl hr) (fun r2 hr => hu2 r2 rfl hr) (fun r2 hr => hu3 r2 rfl hr)
        · exact classify_plain_id life ret lp s rest (fun he => hb he) (fun he => hco he)
            hsh hsu hkw2
    rw [rwCore_emit life ret lp _ _ [Tok.id s] rest false hcl]
    rw [ih1 h]
    simp

theorem blockBare_rw (life : Tok) (body : List Tok) :
    blockBare life body
      = match rwCore life "_ret" LoopTag.bare body with
        | none => none
        | some p => some (wrap life LoopTag.bare "_ret" [] p.1) := by
  unfold blockBare
  rw [runScan_eq_rwAll (entryBare life body)]
  unfold entryBare rwAll
  cases hr : rwCore life "_ret" LoopTag.bare body with
  | none => rfl
  | some p =>
    simp only [rwUnwind]
    cases p.2 <;> simp

theorem blockLoop_rw (life : Tok) (body : List Tok) :
    blockLoop life body
      = match rwCore life "_ret" LoopTag.loopShape body with
        | none => none
        | some p => some (wrap life LoopTag.loopShape "_ret"
            (if p.2 then [] else [Tok.id "=", Tok.group .paren []]) p.1) := by
  unfold blockLoop
  rw [runScan_eq_rwAll (entryLoop life body)]
  unfold entryLoop rwAll
  cases hr : rwCore life "_ret" LoopTag.loopShape body with
  | none => rfl
  | some p =>
    simp only [rwUnwind]
    simp

/-- Runtime values of the interpreted token programs: unit and integers. -/
inductive Val where
  | unit
  | int (n : Int)
deriving DecidableEq, Repr

/-- Control outcome of evaluating a statement/expression: normal completion
with a value, a labeled `break` carrying a value, a labeled `continue`, a
bare unlabeled `break` (`brkB`, caught by the innermost enclosing loop), or a
runtime/compile error (undefined variable, ill-formed program — in particular
the `block!(@error ...)` constructs never evaluate normally). -/
inductive Ctrl where
  | norm (v : Val)
  | brk (l : Tok) (v : Val)
  | cnt (l : Tok)
  | brkB
  | err
deriving DecidableEq, Repr

/-- Mutable environment: variable name to current value. -/
abbrev Env := List (String × Val)

def getVar : Env → String → Option Val
  | [], _ => none
  | (y, v) :: rest, x => if y = x then some v else getVar rest x

def setVar : Env → String → Val → Env
  | [], x, v => [(x, v)]
  | (y, w) :: rest, x, v => if y = x then (y, v) :: rest else (y, w) :: setVar rest x v

theorem getVar_setVar (env : Env) (x : String) (v : Val) :
    getVar (setVar env x v) x = some v := by
  induction env with
  | nil => simp [setVar, getVar]
  | cons p rest ih =>
    by_cases hx : p.1 = x
    · simp [setVar, hx, getVar]
    · simp [setVar, hx, getVar, ih]

/-- Evaluation requests: a single expression token, an expression token
sequence (`break LABEL EXPR` forms and friends), a statement block, or a
labeled `loop` iteration. -/
inductive Req where
  | expr (t : Tok)
  | eseq (ts : List Tok)
  | blk (ts : List Tok)
  | loopR (l : Tok) (body : List Tok)

/-- One step of the big-step interpreter, parameterized by the evaluator `ev`
used for sub-requests.  It covers the token subset that the `block!`
expansions and the bodies used in the theorems below consist of: integer
literals, variables, `let x ;` / `let x = EXPR ;` declarations, assignments
`x = EXPR ;`, empty statements, brace blocks in statement and trailing
position, parenthesized/array expressions, labeled `LBL : loop { ... }`
statements, and `break LBL [EXPR]` / `continue LBL` expressions.  Statement
boundaries are found with `splitAtSemi`.  Anything else evaluates to `err`. -/
def evalStep (ev : Req → Env → Option (Ctrl × Env)) (r : Req) (env : Env) : Option (Ctrl × Env) :=
  match r with
    | .expr t =>
      match t with
      | .lit k => some (.norm (.int k), env)
      | .id x =>
        match getVar env x with
        | some v => some (.norm v, env)
        | none => some (.err, env)
      | .group .brace ts => ev (.blk ts) env
      | .group .paren ts => ev (.eseq ts) env
      | .group .square ts =>
        match ev (.eseq ts) env with
        | some (.norm _, env2) => some (.norm .unit, env2)
        | r2 => r2
    | .eseq ts =>
      match ts with
      | [] => some (.norm .unit, env)
      | [.id "break"] => some (.brkB, env)
      | [t] => ev (.expr t) env
      | .id "break" :: l :: rest =>
        match rest with
        | [] => some (.brk l .unit, env)
        | _ :: _ =>
          match ev (.eseq rest) env with
          | some (.norm v, env2) => some (.brk l v, env2)
          | r2 => r2
      | [.id "continue", l] => some (.cnt l, env)
      | _ => some (.err, env)
    | .blk ts =>
      match ts with
      | [] => some (.norm .unit, env)
      | l :: .id ":" :: .id "loop" :: .group .brace b :: rest =>
        match ev (.loopR l b) env with
        | some (.norm _, env2) => ev (.blk rest) env2
        | r2 => r2
      | .id "let" :: .id x :: .id ";" :: rest => ev (.blk rest) env
      | .id "let" :: .id x :: .id "=" :: rest =>
        match splitAtSemi rest with
        | none => some (.err, env)
        | some (e, rest2) =>
          match ev (.eseq e) env with
          | some (.norm v, env2) => ev (.blk rest2) (setVar env2 x v)
          | r2 => r2
      | .id ";" :: rest => ev (.blk rest) env
      | .group .brace b :: rest =>
        match rest with
        | [] => ev (.blk b) env
        | _ :: _ =>
          match ev (.blk b) env with
          | some (.norm _, env2) => ev (.blk rest) env2
          | r2 => r2
      | _ =>
        match splitAtSemi ts with
        | some (stmt, rest2) =>
          match stmt with
          | .id x :: .id "=" :: e =>
            match ev (.eseq e) env with
            | some (.norm v, env2) => ev (.blk rest2) (setVar env2 x v)
            | r2 => r2
          | _ =>
            match ev (.eseq stmt) env with
            | some (.norm _, env2) => ev (.blk rest2) env2
            | r2 => r2
        | none =>
          match ts with
          | .id x :: .id "=" :: e =>
            match ev (.eseq e) env with
            | some (.norm _, env2) => some (.norm .unit, env2)
            | r2 => r2
          | _ => ev (.eseq ts) env
    | .loopR l b =>
      match ev (.blk b) env with
      | some (.norm _, env2) => ev (.loopR l b) env2
      | some (.brk l2 v, env2) =>
        if l2 = l then some (.norm .unit, env2) else some (.brk l2 v, env2)
      | some (.cnt l2, env2) =>
        if l2 = l then ev (.loopR l b) env2 else some (.cnt l2, env2)
      | some (.brkB, env2) => some (.norm .unit, env2)
      | some (.err, env2) => some (.err, env2)
      | none => none

/-- Fuel-indexed interpreter: one fuel unit per request. -/
def evalR : Nat → Req → Env → Option (Ctrl × Env)
  | 0, _, _ => none
  | n + 1, r, env => evalStep (evalR n) r env


theorem guard_pure_mono (ev1 ev2 : Req → Env → Option (Ctrl × Env))
    (hev : ∀ r env res, ev1 r env = some res → ev2 r env = some res)
    (rq : Req) (K : Ctrl × Env → Option (Ctrl × Env)) (env : Env) (res : Ctrl × Env)
    (h : (match ev1 rq env with
          | some q => K q
          | none => none) = some res) :
    (match ev2 rq env with
          | some q => K q
          | none => none) = some res := by
  cases he : ev1 rq env with
  | none => rw [he] at h; simp at h
  | some q =>
    rw [he] at h
    rw [hev _ _ _ he]
    exact h

theorem evalStep_mono (ev1 ev2 : Req → Env → Option (Ctrl × Env))
    (hev : ∀ r env res, ev1 r env = some res → ev2 r env = some res) :
    ∀ r env res, evalStep ev1 r env = some res → evalStep ev2 r env = some res := by
  have hsq : ∀ ts env res,
      (match ev1 (Req.eseq ts) env with
       | some (Ctrl.norm _, env2) => some (Ctrl.norm Val.unit, env2)
       | r2 => r2) = some res →
      (match ev2 (Req.eseq ts) env with
       | some (Ctrl.norm _, env2) => some (Ctrl.norm Val.unit, env2)
       | r2 => r2) = some res := by
    intro ts env res h
    cases he : ev1 (Req.eseq ts) env with
    | none => rw [he] at h; simp at h
    | some q =>
      rw [he] at h
      rw [hev _ _ _ he]
      exact h
  have hbrkseq : ∀ l rest env res,
      (match ev1 (Req.eseq rest) env with
       | some (Ctrl.norm v, env2) => some (Ctrl.brk l v, env2)
       | r2 => r2) = some res →
      (match ev2 (Req.eseq rest) env with
       | some (Ctrl.norm v, env2) => some (Ctrl.brk l v, env2)
       | r2 => r2) = some res := by
    intro l rest env res h
    cases he : ev1 (Req.eseq rest) env with
    | none => rw [he] at h; simp at h
    | some q =>
      rw [he] at h
      rw [hev _ _ _ he]
      exact h
  have hloopstmt : ∀ l b rest env res,
      (match ev1 (Req.loopR l b) env with
       | some (Ctrl.norm _, env2) => ev1 (Req.blk rest) env2
       | r2 => r2) = some res →
      (match ev2 (Req.loopR l b) env with
       | some (Ctrl.norm _, env2) => ev2 (Req.blk rest) env2
       | r2 => r2) = some res := by
    intro l b rest env res h
    cases he : ev1 (Req.loopR l b) env with
    | none => rw [he] at h; simp at h
    | some q =>
      rw [he] at h
      rw [hev _ _ _ he]
      obtain ⟨c, env2⟩ := q
      cases c with
      | norm v => exact hev _ _ _ h
      | brk l2 v => exact h
      | cnt l2 => exact h
      | brkB => exact h
      | err => exact h
  have hassign : ∀ x e rest2 env res,
      (match ev1 (Req.eseq e) env with
       | some (Ctrl.norm v, env2) => ev1 (Req.blk rest2) (setVar env2 x v)
       | r2 => r2) = some res →
      (match ev2 (Req.eseq e) env with
       | some (Ctrl.norm v, env2) => ev2 (Req.blk rest2) (setVar env2 x v)
       | r2 => r2) = some res := by
    intro x e rest2 env res h
    cases he : ev1 (Req.eseq e) env with
    | none => rw [he] at h; simp at h
    | some q =>
      rw [he] at h
      rw [hev _ _ _ he]
      obtain ⟨c, env2⟩ := q
      cases c with
      | norm v => exact hev _ _ _ h
      | brk l2 v => exact h
      | cnt l2 => exact h
      | brkB => exact h
      | err => exact h
  have hstmtseq : ∀ stmt rest2 env res,
      (match ev1 (Req.eseq stmt) env with
       | some (Ctrl.norm _, env2) => ev1 (Req.blk rest2) env2
       | r2 => r2) = some res →
      (match ev2 (Req.eseq stmt) env with
       | some (Ctrl.norm _, env2) => ev2 (Req.blk rest2) env2
       | r2 => r2) = some res := by
    intro stmt rest2 env res h
    cases he : ev1 (Req.eseq stmt) env with
    | none => rw [he] at h; simp at h
    | some q =>
      rw [he] at h
      rw [hev _ _ _ he]
      obtain ⟨c, env2⟩ := q
      cases c with
      | norm v => exact hev _ _ _ h
      | brk l2 v => exact h
      | cnt l2 => exact h
      | brkB => exact h
      | err => exact h
  have hbracestmt : ∀ b rest env res,
      (match ev1 (Req.blk b) env with
       | some (Ctrl.norm _, env2) => ev1 (Req.blk rest) env2
       | r2 => r2) = some res →
      (match ev2 (Req.blk b) env with
       | some (Ctrl.norm _, env2) => ev2 (Req.blk rest) env2
       | r2 => r2) = some res := by
    intro b rest env res h
    cases he : ev1 (Req.blk b) env with
    | none => rw [he] at h; simp at h
    | some q =>
      rw [he] at h
      rw [hev _ _ _ he]
      obtain ⟨c, env2⟩ := q
      cases c with
      | norm v => exact hev _ _ _ h
      | brk l2 v => exact h
      | cnt l2 => exact h
      | brkB => exact h
      | err => exact h
  intro r env res h
  unfold evalStep at h ⊢
  cases r with
  | expr t =>
    cases t with
    | lit k => exact h
    | id x => exact h
    | group b ts =>
      cases b with
      | brace => exact hev _ _ _ h
      | paren => exact hev _ _ _ h
      | square => exact hsq _ _ _ h
  | eseq ts =>
    simp only [] at h ⊢
    split at h
    · exact h
    · exact h
    · exact hev _ _ _ h
    · rename_i l rest
      cases rest with
      | nil => exact h
      | cons r1 r2 => exact hbrkseq _ _ _ _ h
    · exact h
    · exact h
  | blk ts =>
    simp only [] at h ⊢
    split at h
    · exact h
    · exact hloopstmt _ _ _ _ _ h
    · exact hev _ _ _ h
    · rename_i x rest
      cases hs : splitAtSemi rest with
      | none => rw [hs] at h; exact h
      | some pr =>
        obtain ⟨e, rest2⟩ := pr
        rw [hs] at h
        exact hassign _ _ _ _ _ h
    · exact hev _ _ _ h
    · rename_i bi br hneg
      cases br with
      | nil => exact hev _ _ _ h
      | cons r1 r2 => exact hbracestmt _ _ _ _ h
    · split at h
      · split
        · exact hassign _ _ _ _ _ h
        · rename_i hns
          split at h
          · exact absurd rfl (hns _ _)
          · exact hstmtseq _ _ _ _ h
      · split
        · exact hsq _ _ _ h
        · rename_i hns
          split at h
          · exact absurd rfl (hns _ _)
          · exact hev _ _ _ h
  | loopR l b =>
    simp only [] at h ⊢
    cases he : ev1 (Req.blk b) env with
    | none => rw [he] at h; simp at h
    | some q =>
      rw [he] at h
      rw [hev _ _ _ he]
      obtain ⟨c, env2⟩ := q
      cases c with
      | norm v => exact hev _ _ _ h
      | brk l2 v => exact h
      | cnt l2 =>
        have h3 : (if l2 = l then ev1 (Req.loopR l b) env2 else some (Ctrl.cnt l2, env2))
            = some res := h
        show (if l2 = l then ev2 (Req.loopR l b) env2 else some (Ctrl.cnt l2, env2)) = some res
        by_cases hl : l2 = l
        · rw [if_pos hl] at h3 ⊢
          exact hev _ _ _ h3
        · rw [if_neg hl] at h3 ⊢
          exact h3
      | brkB => exact h
      | err => exact h

theorem evalR_mono : ∀ n r env res, evalR n r env = some res → evalR (n + 1) r env = some res := by
  intro n
  induction n with
  | zero => intro r env res h; simp [evalR] at h
  | succ n ih =>
    intro r env res h
    exact evalStep_mono (evalR n) (evalR (n + 1)) ih r env res h

theorem evalR_le (n m : Nat) (r : Req) (env : Env) (res : Ctrl × Env) (hnm : n ≤ m)
    (h : evalR n r env = some res) : evalR m r env = some res := by
  induction hnm with
  | refl => exact h
  | step ih2 ih => exact evalR_mono _ _ _ _ ih

/-- Big-step evaluation: some fuel suffices. -/
def Evals (r : Req) (env : Env) (res : Ctrl × Env) : Prop :=
  ∃ n, evalR n r env = some res

theorem evals_eseq_break_pair (m : Nat) (l : Tok) (env : Env) :
    evalR (m + 1) (Req.eseq [Tok.id "break", l]) env = some (Ctrl.brk l Val.unit, env) := rfl


/-- Running the statement `break l ;` as a block yields control `brk l unit`. -/
theorem evalR_blk_break_semi (m : Nat) (l : Tok) (env : Env)
    (hsemi : l ≠ Tok.id ";") (heq : l ≠ Tok.id "=") :
    evalR (m + 2) (Req.blk [Tok.id "break", l, Tok.id ";"]) env
      = some (Ctrl.brk l Val.unit, env) := by
  have hsplit : splitAtSemi [Tok.id "break", l, Tok.id ";"]
      = some ([Tok.id "break", l], []) := by
    have hmem : Tok.id ";" ∉ [Tok.id "break", l] := by
      intro hm
      simp at hm
      exact hsemi hm.symm
    simpa using splitAtSemi_append [Tok.id "break", l] [] hmem
  show evalStep (evalR (m + 1)) (Req.blk [Tok.id "break", l, Tok.id ";"]) env = _
  unfold evalStep
  split
  all_goals try simp_all
  rename_i ts2 hts
  subst hts
  split
  all_goals try simp_all
  rw [evals_eseq_break_pair m l env]

/-- Running a block headed by a labeled loop statement first runs the loop. -/
theorem evalR_blk_loop_head (m : Nat) (l : Tok) (b rest : List Tok) (env : Env)
    (res : Ctrl × Env)
    (h : (match evalR m (Req.loopR l b) env with
          | some (Ctrl.norm v2, env2) => evalR m (Req.blk rest) env2
          | r2 => r2) = some res) :
    evalR (m + 1) (Req.blk (l :: Tok.id ":" :: Tok.id "loop" :: Tok.group .brace b :: rest)) env
      = some res := by
  show evalStep (evalR m) _ _ = _
  unfold evalStep
  split
  all_goals try simp_all
  rename_i ts2 hts
  subst hts
  split
  all_goals try simp_all
  · rename_i hns hl
    exact absurd hl.2.symm (hns b rest)
  · rename_i hns hl
    exact absurd hl.2.symm (hns b rest)

set_option maxHeartbeats 1600000 in
/-- Evaluating the bare-shape wrapper when BODY completes normally with value
`v`: the wrapper stores `v` in the result slot, breaks the single-iteration
loop, and yields `v` (the `@wrap` bare rule, `src/lib.rs` lines 97-107). -/
theorem wrap_bare_eval_norm (life : Tok) (body : List Tok) (v : Val) (env1 : Env)
    (hsemi : life ≠ Tok.id ";") (heq : life ≠ Tok.id "=")
    (h : Evals (Req.blk body) [] (Ctrl.norm v, env1)) :
    Evals (Req.expr (wrap life LoopTag.bare "_ret" [] body)) []
      (Ctrl.norm v, setVar env1 "_ret" v) := by
  obtain ⟨n, hn⟩ := h
  have h7 : evalR (n + 1) (Req.blk body) [] = some (Ctrl.norm v, env1) :=
    evalR_le n (n + 1) _ _ _ (by omega) hn
  have hB : evalR (n + 3) (Req.eseq [Tok.group .brace body]) [] = some (Ctrl.norm v, env1) := by
    show evalR (n + 2) (Req.expr (Tok.group .brace body)) [] = some (Ctrl.norm v, env1)
    show evalR (n + 1) (Req.blk body) [] = some (Ctrl.norm v, env1)
    exact h7
  have hC : evalR (n + 4) (Req.blk [Tok.id "_ret", Tok.id "=", Tok.group .brace body,
      Tok.id ";", Tok.id "break", life, Tok.id ";"]) []
      = some (Ctrl.brk life Val.unit, setVar env1 "_ret" v) := by
    show (match evalR (n + 3) (Req.eseq [Tok.group .brace body]) [] with
          | some (Ctrl.norm v2, env2) =>
            evalR (n + 3) (Req.blk [Tok.id "break", life, Tok.id ";"]) (setVar env2 "_ret" v2)
          | r2 => r2) = some (Ctrl.brk life Val.unit, setVar env1 "_ret" v)
    rw [hB]
    show evalR (n + 3) (Req.blk [Tok.id "break", life, Tok.id ";"]) (setVar env1 "_ret" v)
        = some (Ctrl.brk life Val.unit, setVar env1 "_ret" v)
    exact evalR_blk_break_semi (n + 1) life (setVar env1 "_ret" v) hsemi heq
  have hD : evalR (n + 5) (Req.loopR life [Tok.id "_ret", Tok.id "=", Tok.group .brace body,
      Tok.id ";", Tok.id "break", life, Tok.id ";"]) []
      = some (Ctrl.norm Val.unit, setVar env1 "_ret" v) := by
    show (match evalR (n + 4) (Req.blk [Tok.id "_ret", Tok.id "=", Tok.group .brace body,
          Tok.id ";", Tok.id "break", life, Tok.id ";"]) [] with
          | some (Ctrl.norm _, env2) => evalR (n + 4) (Req.loopR life [Tok.id "_ret",
              Tok.id "=", Tok.group .brace body, Tok.id ";", Tok.id "break", life, Tok.id ";"]) env2
          | some (Ctrl.brk l2 v2, env2) =>
            if l2 = life then some (Ctrl.norm Val.unit, env2) else some (Ctrl.brk l2 v2, env2)
          | some (Ctrl.cnt l2, env2) =>
            if l2 = life then evalR (n + 4) (Req.loopR life [Tok.id "_ret", Tok.id "=",
                Tok.group .brace body, Tok.id ";", Tok.id "break", life, Tok.id ";"]) env2
            else some (Ctrl.cnt l2, env2)
          | some (Ctrl.brkB, env2) => some (Ctrl.norm Val.unit, env2)
          | some (Ctrl.err, env2) => some (Ctrl.err, env2)
          | none => none) = some (Ctrl.norm Val.unit, setVar env1 "_ret" v)
    rw [hC]
    show (if life = life then some (Ctrl.norm Val.unit, setVar env1 "_ret" v)
          else some (Ctrl.brk life Val.unit, setVar env1 "_ret" v))
        = some (Ctrl.norm Val.unit, setVar env1 "_ret" v)
    rw [if_pos rfl]
  have hRet : evalR (n + 5) (Req.blk [Tok.id "_ret"]) (setVar env1 "_ret" v)
      = some (Ctrl.norm v, setVar env1 "_ret" v) := by
    show (match getVar (setVar env1 "_ret" v) "_ret" with
          | some v2 => some (Ctrl.norm v2, setVar env1 "_ret" v)
          | none => some (Ctrl.err, setVar env1 "_ret" v)) = _
    rw [getVar_setVar]
  have hE : evalR (n + 6) (Req.blk [life, Tok.id ":", Tok.id "loop",
      Tok.group .brace [Tok.id "_ret", Tok.id "=", Tok.group .brace body, Tok.id ";",
        Tok.id "break", life, Tok.id ";"], Tok.id "_ret"]) []
      = some (Ctrl.norm v, setVar env1 "_ret" v) := by
    refine evalR_blk_loop_head (n + 5) life _ [Tok.id "_ret"] [] _ ?_
    rw [hD]
    exact hRet
  refine ⟨n + 8, ?_⟩
  show evalR (n + 7) (Req.blk ([Tok.id "let", Tok.id "_ret"] ++ [] ++ [Tok.id ";", life,
      Tok.id ":", Tok.id "loop",
      Tok.group .brace [Tok.id "_ret", Tok.id "=", Tok.group .brace body, Tok.id ";",
        Tok.id "break", life, Tok.id ";"], Tok.id "_ret"])) []
      = some (Ctrl.norm v, setVar env1 "_ret" v)
  show evalR (n + 6) (Req.blk [life, Tok.id ":", Tok.id "loop",
      Tok.group .brace [Tok.id "_ret", Tok.id "=", Tok.group .brace body, Tok.id ";",
        Tok.id "break", life, Tok.id ";"], Tok.id "_ret"]) []
      = some (Ctrl.norm v, setVar env1 "_ret" v)
  exact hE

set_option maxHeartbeats 1600000 in
/-- Evaluating the bare-shape wrapper when BODY exits by breaking the block's
own label: the single-iteration loop catches the break, and the wrapper yields
whatever the result slot holds (the `@wrap` bare rule). -/
theorem wrap_bare_eval_brk (life : Tok) (body : List Tok) (w v : Val) (env1 : Env)
    (hv : getVar env1 "_ret" = some v)
    (h : Evals (Req.blk body) [] (Ctrl.brk life w, env1)) :
    Evals (Req.expr (wrap life LoopTag.bare "_ret" [] body)) [] (Ctrl.norm v, env1) := by
  obtain ⟨n, hn⟩ := h
  have h7 : evalR (n + 1) (Req.blk body) [] = some (Ctrl.brk life w, env1) :=
    evalR_le n (n + 1) _ _ _ (by omega) hn
  have hB : evalR (n + 3) (Req.eseq [Tok.group .brace body]) []
      = some (Ctrl.brk life w, env1) := by
    show evalR (n + 2) (Req.expr (Tok.group .brace body)) [] = some (Ctrl.brk life w, env1)
    show evalR (n + 1) (Req.blk body) [] = some (Ctrl.brk life w, env1)
    exact h7
  have hC : evalR (n + 4) (Req.blk [Tok.id "_ret", Tok.id "=", Tok.group .brace body,
      Tok.id ";", Tok.id "break", life, Tok.id ";"]) []
      = some (Ctrl.brk life w, env1) := by
    show (match evalR (n + 3) (Req.eseq [Tok.group .brace body]) [] with
          | some (Ctrl.norm v2, env2) =>
            evalR (n + 3) (Req.blk [Tok.id "break", life, Tok.id ";"]) (setVar env2 "_ret" v2)
          | r2 => r2) = some (Ctrl.brk life w, env1)
    rw [hB]
  have hD : evalR (n + 5) (Req.loopR life [Tok.id "_ret", Tok.id "=", Tok.group .brace body,
      Tok.id ";", Tok.id "break", life, Tok.id ";"]) []
      = some (Ctrl.norm Val.unit, env1) := by
    show (match evalR (n + 4) (Req.blk [Tok.id "_ret", Tok.id "=", Tok.group .brace body,
          Tok.id ";", Tok.id "break", life, Tok.id ";"]) [] with
          | some (Ctrl.norm _, env2) => evalR (n + 4) (Req.loopR life [Tok.id "_ret",
              Tok.id "=", Tok.group .brace body, Tok.id ";", Tok.id "break", life, Tok.id ";"]) env2
          | some (Ctrl.brk l2 v2, env2) =>
            if l2 = life then some (Ctrl.norm Val.unit, env2) else some (Ctrl.brk l2 v2, env2)
          | some (Ctrl.cnt l2, env2) =>
            if l2 = life then evalR (n + 4) (Req.loopR life [Tok.id "_ret", Tok.id "=",
                Tok.group .brace body, Tok.id ";", Tok.id "break", life, Tok.id ";"]) env2
            else some (Ctrl.cnt l2, env2)
          | some (Ctrl.brkB, env2) => some (Ctrl.norm Val.unit, env2)
          | some (Ctrl.err, env2) => some (Ctrl.err, env2)
          | none => none) = some (Ctrl.norm Val.unit, env1)
    rw [hC]
    show (if life = life then some (Ctrl.norm Val.unit, env1)
          else some (Ctrl.brk life w, env1)) = some (Ctrl.norm Val.unit, env1)
    rw [if_pos rfl]
  have hRet : evalR (n + 5) (Req.blk [Tok.id "_ret"]) env1 = some (Ctrl.norm v, env1) := by
    show (match getVar env1 "_ret" with
          | some v2 => some (Ctrl.norm v2, env1)
          | none => some (Ctrl.err, env1)) = _
    rw [hv]
  have hE : evalR (n + 6) (Req.blk [life, Tok.id ":", Tok.id "loop",
      Tok.group .brace [Tok.id "_ret", Tok.id "=", Tok.group .brace body, Tok.id ";",
        Tok.id "break", life, Tok.id ";"], Tok.id "_ret"]) []
      = some (Ctrl.norm v, env1) := by
    refine evalR_blk_loop_head (n + 5) life _ [Tok.id "_ret"] [] _ ?_
    rw [hD]
    exact hRet
  refine ⟨n + 8, ?_⟩
  show evalR (n + 7) (Req.blk ([Tok.id "let", Tok.id "_ret"] ++ [] ++ [Tok.id ";", life,
      Tok.id ":", Tok.id "loop",
      Tok.group .brace [Tok.id "_ret", Tok.id "=", Tok.group .brace body, Tok.id ";",
        Tok.id "break", life, Tok.id ";"], Tok.id "_ret"])) []
      = some (Ctrl.norm v, env1)
  show evalR (n + 6) (Req.blk [life, Tok.id ":", Tok.id "loop",
      Tok.group .brace [Tok.id "_ret", Tok.id "=", Tok.group .brace body, Tok.id ";",
        Tok.id "break", life, Tok.id ";"], Tok.id "_ret"]) []
      = some (Ctrl.norm v, env1)
  exact hE

/-- The interpreter is deterministic: two convergent runs agree. -/
theorem Evals_det (r : Req) (env : Env) (res1 res2 : Ctrl × Env)
    (h1 : Evals r env res1) (h2 : Evals r env res2) : res1 = res2 := by
  obtain ⟨n1, h1⟩ := h1
  obtain ⟨n2, h2⟩ := h2
  have g1 := evalR_le n1 (n1 + n2) _ _ _ (by omega) h1
  have g2 := evalR_le n2 (n1 + n2) _ _ _ (by omega) h2
  rw [g1] at g2
  exact Option.some.inj g2

/-- Running the trailing expression `break l` (no semicolon) as a block yields
control `brk l unit`. -/
theorem evalR_blk_break_end (m : Nat) (l : Tok) (env : Env)
    (hsemi : l ≠ Tok.id ";") (heq : l ≠ Tok.id "=") :
    evalR (m + 2) (Req.blk [Tok.id "break", l]) env = some (Ctrl.brk l Val.unit, env) := by
  have hsplit : splitAtSemi [Tok.id "break", l] = none := by
    refine splitAtSemi_none _ ?_
    intro hm
    simp at hm
    exact hsemi hm.symm
  show evalStep (evalR (m + 1)) (Req.blk [Tok.id "break", l]) env = _
  unfold evalStep
  split
  all_goals try simp_all
  rename_i ts2 hts
  subst hts
  split
  all_goals try simp_all
  exact evals_eseq_break_pair m l env

/-- One expression-level bracket layer (parenthesis or square bracket) around
the matching break expression, for claim C2's arbitrary-depth family. -/
inductive PWrap where
  | paren
  | square
deriving DecidableEq, Repr

def PWrap.brack : PWrap → Brack
  | .paren => Brack.paren
  | .square => Brack.square

/-- `break LABEL VALUE` wrapped in the expression bracket layers `ps`. -/
def pToksN (la : Tok) (v : Int) : List PWrap → List Tok
  | [] => [Tok.id "break", la, Tok.lit v]
  | pb :: ps => [Tok.group pb.brack (pToksN la v ps)]

/-- The scanner's rewriting of `pToksN la v ps`: the matching break at the end
of its group becomes `{ _ret = VALUE ; break LABEL }` (the end-of-group
`break LIFETIME EXPR` rule), and the bracket layers are preserved. -/
def pRwN (la : Tok) (v : Int) : List PWrap → List Tok
  | [] => [Tok.group .brace [Tok.id "_ret", Tok.id "=", Tok.lit v, Tok.id ";",
      Tok.id "break", la]]
  | pb :: ps => [Tok.group pb.brack (pRwN la v ps)]

/-- Statement-level nesting for claim C2: the matching break statement at the
current depth (`here`), a statement that is the break expression under at
least one paren/square layer (`stmt`), or a brace block containing the nest
one level deeper (`deeper`) — each followed by arbitrary trailing sibling
statements `post`. -/
inductive SNest where
  | here (post : List Tok)
  | stmt (pb : PWrap) (ps : List PWrap) (post : List Tok)
  | deeper (s : SNest) (post : List Tok)

def sToksN (la : Tok) (v : Int) : SNest → List Tok
  | .here post => Tok.id "break" :: la :: Tok.lit v :: Tok.id ";" :: post
  | .stmt pb ps post => pToksN la v (pb :: ps) ++ Tok.id ";" :: post
  | .deeper s post => Tok.group .brace (sToksN la v s) :: post

/-- The rewritten sibling list does not start with a `:` token (so that a
preceding brace statement is not re-parsed as a labeled loop). -/
def notColonHead : List Tok → Prop
  | [] => True
  | t :: _ => t ≠ Tok.id ":"

/-- Every trailing sibling list in the nest scans successfully, and its
rewriting does not begin with a stray `:`. -/
def postsOk (la : Tok) : SNest → Prop
  | .here post => ∃ p, rwCore la "_ret" LoopTag.bare post = some p ∧ notColonHead p.1
  | .stmt _ _ post => ∃ p, rwCore la "_ret" LoopTag.bare post = some p
  | .deeper s post =>
    postsOk la s ∧ ∃ p, rwCore la "_ret" LoopTag.bare post = some p ∧ notColonHead p.1

/-- Scanning the bracket-nested matching break rewrites exactly the innermost
break and preserves the layers, clearing the initializer. -/
theorem pToksN_scan (la : Tok) (v : Int) (lp : LoopTag) (hsemi : la ≠ Tok.id ";") :
    ∀ ps : List PWrap,
    rwCore la "_ret" lp (pToksN la v ps) = some (pRwN la v ps, true) := by
  intro ps
  induction ps with
  | nil =>
    have hc : classify la "_ret" lp (Tok.id "break") (la :: [Tok.lit v])
        = ScanAct.emit [Tok.group .brace ([Tok.id "_ret", Tok.id "="] ++ [Tok.lit v]
            ++ [Tok.id ";", Tok.id "break", la])] [] true :=
      classify_break_expr_end_eq la "_ret" lp la [Tok.lit v] hsemi (by simp) (by simp) rfl
    rw [show pToksN la v [] = Tok.id "break" :: la :: [Tok.lit v] from rfl]
    rw [rwCore_emit la "_ret" lp _ _ _ _ _ hc]
    rw [rwCore_nil]
    simp [pRwN]
  | cons pb ps ih =>
    rw [show pToksN la v (pb :: ps) = Tok.group pb.brack (pToksN la v ps) :: [] from rfl]
    rw [rwCore_enter la "_ret" lp _ _ pb.brack (pToksN la v ps) []
      (classify_group la "_ret" lp pb.brack (pToksN la v ps) [])]
    rw [ih, rwCore_nil]
    simp [pRwN]

set_option maxHeartbeats 1600000 in
/-- Running `_ret = VALUE ; break l ;` as a block stores the value and breaks. -/
theorem evalR_blk_assign_break (m : Nat) (la : Tok) (v : Int) (env : Env)
    (hsemi : la ≠ Tok.id ";") (heq : la ≠ Tok.id "=") :
    evalR (m + 3) (Req.blk [Tok.id "_ret", Tok.id "=", Tok.lit v, Tok.id ";",
        Tok.id "break", la, Tok.id ";"]) env
      = some (Ctrl.brk la Val.unit, setVar env "_ret" (Val.int v)) := by
  show (match evalR (m + 2) (Req.eseq [Tok.lit v]) env with
        | some (Ctrl.norm v2, env2) =>
          evalR (m + 2) (Req.blk [Tok.id "break", la, Tok.id ";"]) (setVar env2 "_ret" v2)
        | r2 => r2) = some (Ctrl.brk la Val.unit, setVar env "_ret" (Val.int v))
  rw [show evalR (m + 2) (Req.eseq [Tok.lit v]) env
      = some (Ctrl.norm (Val.int v), env) from rfl]
  exact evalR_blk_break_semi m la (setVar env "_ret" (Val.int v)) hsemi heq

set_option maxHeartbeats 1600000 in
/-- Running `_ret = VALUE ; break l` (no final semicolon) as a block stores
the value and breaks. -/
theorem evalR_blk_assign_break_end (m : Nat) (la : Tok) (v : Int) (env : Env)
    (hsemi : la ≠ Tok.id ";") (heq : la ≠ Tok.id "=") :
    evalR (m + 3) (Req.blk [Tok.id "_ret", Tok.id "=", Tok.lit v, Tok.id ";",
        Tok.id "break", la]) env
      = some (Ctrl.brk la Val.unit, setVar env "_ret" (Val.int v)) := by
  show (match evalR (m + 2) (Req.eseq [Tok.lit v]) env with
        | some (Ctrl.norm v2, env2) =>
          evalR (m + 2) (Req.blk [Tok.id "break", la]) (setVar env2 "_ret" v2)
        | r2 => r2) = some (Ctrl.brk la Val.unit, setVar env "_ret" (Val.int v))
  rw [show evalR (m + 2) (Req.eseq [Tok.lit v]) env
      = some (Ctrl.norm (Val.int v), env) from rfl]
  exact evalR_blk_break_end m la (setVar env "_ret" (Val.int v)) hsemi heq

/-- A brace statement whose block ends in non-normal control propagates that
control, skipping all following statements. -/
theorem evalR_blk_brace_stmt_ctrl (m : Nat) (b rest : List Tok) (env env2 : Env)
    (c : Ctrl) (hc : ∀ v2, c ≠ Ctrl.norm v2) (hrest : notColonHead rest)
    (h : evalR m (Req.blk b) env = some (c, env2)) :
    evalR (m + 1) (Req.blk (Tok.group .brace b :: rest)) env = some (c, env2) := by
  cases rest with
  | nil =>
    show evalR m (Req.blk b) env = some (c, env2)
    exact h
  | cons r1 r2 =>
    have hr1 : r1 ≠ Tok.id ":" := hrest
    show evalStep (evalR m) (Req.blk (Tok.group .brace b :: r1 :: r2)) env = some (c, env2)
    unfold evalStep
    split
    all_goals try simp_all
    rename_i ts2 hts
    subst hts
    split
    all_goals try simp_all
    rename_i ts3 b3 rest3 hns hbr
    cases rest3 <;> rfl

/-- Evaluating the rewritten bracket-nested break expression: assigns the
value to the result slot and raises `brk LABEL`. -/
theorem pRwN_eval (la : Tok) (v : Int) (hsemi : la ≠ Tok.id ";") (heq : la ≠ Tok.id "=") :
    ∀ (ps : List PWrap) (env : Env),
    Evals (Req.eseq (pRwN la v ps)) env (Ctrl.brk la Val.unit, setVar env "_ret" (Val.int v)) := by
  intro ps
  induction ps with
  | nil =>
    intro env
    refine ⟨6, ?_⟩
    show evalR 5 (Req.expr (Tok.group .brace [Tok.id "_ret", Tok.id "=", Tok.lit v,
        Tok.id ";", Tok.id "break", la])) env = _
    show evalR 4 (Req.blk [Tok.id "_ret", Tok.id "=", Tok.lit v,
        Tok.id ";", Tok.id "break", la]) env = _
    exact evalR_blk_assign_break_end 1 la v env hsemi heq
  | cons pb ps ih =>
    intro env
    obtain ⟨n, hn⟩ := ih env
    cases pb with
    | paren =>
      refine ⟨n + 2, ?_⟩
      show evalR (n + 1) (Req.expr (Tok.group .paren (pRwN la v ps))) env = _
      show evalR n (Req.eseq (pRwN la v ps)) env = _
      exact hn
    | square =>
      refine ⟨n + 2, ?_⟩
      show evalR (n + 1) (Req.expr (Tok.group .square (pRwN la v ps))) env = _
      show (match evalR n (Req.eseq (pRwN la v ps)) env with
            | some (Ctrl.norm _, env2) => some (Ctrl.norm Val.unit, env2)
            | r2 => r2) = _
      rw [hn]

/-- Combined scan-and-evaluate induction for the C2 nest family: the body
scans to a rewritten body which, run as a block in any environment, stores
VALUE in the result slot and raises `brk LABEL`, skipping every trailing
sibling at every level. -/
theorem sNest_scan_eval (la : Tok) (v : Int) (hsemi : la ≠ Tok.id ";")
    (heq : la ≠ Tok.id "=") :
    ∀ s : SNest, postsOk la s →
    ∃ out c, rwCore la "_ret" LoopTag.bare (sToksN la v s) = some (out, c)
      ∧ ∀ env, Evals (Req.blk out) env
          (Ctrl.brk la Val.unit, setVar env "_ret" (Val.int v)) := by
  intro s
  induction s with
  | here post =>
    intro hp
    obtain ⟨p, hp1, hp2⟩ := hp
    have hc : classify la "_ret" LoopTag.bare (Tok.id "break")
        (la :: ([Tok.lit v] ++ Tok.id ";" :: post))
        = ScanAct.emit [Tok.group .brace ([Tok.id "_ret", Tok.id "="] ++ [Tok.lit v]
            ++ [Tok.id ";", Tok.id "break", la, Tok.id ";"])] post true :=
      classify_break_expr_semi_eq la "_ret" LoopTag.bare la [Tok.lit v] post hsemi
        (by simp) (by simp) rfl
    refine ⟨Tok.group .brace [Tok.id "_ret", Tok.id "=", Tok.lit v, Tok.id ";",
        Tok.id "break", la, Tok.id ";"] :: p.1, true || p.2, ?_, ?_⟩
    · rw [show sToksN la v (SNest.here post)
          = Tok.id "break" :: (la :: ([Tok.lit v] ++ Tok.id ";" :: post)) from rfl]
      rw [rwCore_emit _ _ _ _ _ _ _ _ hc, hp1]
      simp
    · intro env
      refine ⟨5, ?_⟩
      refine evalR_blk_brace_stmt_ctrl 4 _ p.1 env _ _ ?_ hp2
        (evalR_blk_assign_break 1 la v env hsemi heq)
      intro v2 hx
      cases hx
  | stmt pb ps post =>
    intro hp
    obtain ⟨p, hp1⟩ := hp
    have hcls : classify la "_ret" LoopTag.bare (Tok.id ";") post
        = ScanAct.emit [Tok.id ";"] post false :=
      classify_plain_id la "_ret" LoopTag.bare ";" post (by decide) (by decide)
        (by decide) (by decide) (by decide)
    have hscTail : rwCore la "_ret" LoopTag.bare (Tok.id ";" :: post)
        = some (Tok.id ";" :: p.1, p.2) := by
      rw [rwCore_emit _ _ _ _ _ _ _ _ hcls, hp1]
      simp
    refine ⟨Tok.group pb.brack (pRwN la v ps) :: Tok.id ";" :: p.1, true || p.2, ?_, ?_⟩
    · rw [show sToksN la v (SNest.stmt pb ps post)
          = Tok.group pb.brack (pToksN la v ps) :: (Tok.id ";" :: post) from rfl]
      rw [rwCore_enter _ _ _ _ _ _ _ _
        (classify_group la "_ret" LoopTag.bare pb.brack (pToksN la v ps) (Tok.id ";" :: post))]
      rw [pToksN_scan la v LoopTag.bare hsemi ps, hscTail]
    · intro env
      obtain ⟨n, hn⟩ := pRwN_eval la v hsemi heq (pb :: ps) env
      refine ⟨n + 1, ?_⟩
      cases pb with
      | paren =>
        have hn2 : evalR n (Req.eseq [Tok.group .paren (pRwN la v ps)]) env
            = some (Ctrl.brk la Val.unit, setVar env "_ret" (Val.int v)) := hn
        show (match evalR n (Req.eseq [Tok.group .paren (pRwN la v ps)]) env with
              | some (Ctrl.norm _, env2) => evalR n (Req.blk p.1) env2
              | r2 => r2) = some (Ctrl.brk la Val.unit, setVar env "_ret" (Val.int v))
        rw [hn2]
      | square =>
        have hn2 : evalR n (Req.eseq [Tok.group .square (pRwN la v ps)]) env
            = some (Ctrl.brk la Val.unit, setVar env "_ret" (Val.int v)) := hn
        show (match evalR n (Req.eseq [Tok.group .square (pRwN la v ps)]) env with
              | some (Ctrl.norm _, env2) => evalR n (Req.blk p.1) env2
              | r2 => r2) = some (Ctrl.brk la Val.unit, setVar env "_ret" (Val.int v))
        rw [hn2]
  | deeper s post ih =>
    intro hp
    obtain ⟨hps, p, hp1, hp2⟩ := hp
    obtain ⟨out, c, hscan, heval⟩ := ih hps
    refine ⟨Tok.group .brace out :: p.1, c || p.2, ?_, ?_⟩
    · rw [show sToksN la v (SNest.deeper s post)
          = Tok.group .brace (sToksN la v s) :: post from rfl]
      rw [rwCore_enter _ _ _ _ _ _ _ _
        (classify_group la "_ret" LoopTag.bare .brace (sToksN la v s) post)]
      rw [hscan, hp1]
    · intro env
      obtain ⟨k, hk⟩ := heval env
      refine ⟨k + 1, evalR_blk_brace_stmt_ctrl k out p.1 env _ _ ?_ hp2 hk⟩
      intro v2 hx
      cases hx

/-- The whole construct `block!(LIFE: { BODY })` expands successfully and its
expansion evaluates (in the empty environment) to the value `v`. -/
def BlockEvalsTo (life : Tok) (body : List Tok) (v : Val) : Prop :=
  ∃ t env2, blockBare life body = some t ∧ Evals (Req.expr t) [] (Ctrl.norm v, env2)

theorem rwCore_single_lit (life : Tok) (ret : String) (lp : LoopTag) (k : Int) :
    rwCore life ret lp [Tok.lit k] = some ([Tok.lit k], false) := by
  rw [rwCore_emit _ _ _ _ _ _ _ _ (classify_lit life ret lp k []), rwCore_nil]
  simp

/-- A nest-family body makes the whole bare-block construct evaluate to the
broken value. -/
theorem sNest_block (la : Tok) (v : Int) (hsemi : la ≠ Tok.id ";")
    (heq : la ≠ Tok.id "=") (s : SNest) (hps : postsOk la s) :
    BlockEvalsTo la (sToksN la v s) (Val.int v) := by
  obtain ⟨out, c, hscan, heval⟩ := sNest_scan_eval la v hsemi heq s hps
  refine ⟨wrap la LoopTag.bare "_ret" [] out, setVar [] "_ret" (Val.int v), ?_, ?_⟩
  · rw [blockBare_rw, hscan]
  · exact wrap_bare_eval_brk la out Val.unit (Val.int v) (setVar [] "_ret" (Val.int v))
      (by rw [getVar_setVar]) (heval [])

/-- C2: for every body in the nest family — a `break LABEL VALUE` whose label
matches the block's own label, placed at arbitrary bracket nesting depth
(brace statements via `SNest.deeper`, parenthesis/square-bracket expression
layers via `PWrap` lists), followed at every enclosing level by arbitrary
successfully-scanned sibling statements — the whole bare-block construct
evaluates to VALUE, skipping all those siblings; in particular
`block!(la: { break la 0; 1 })` evaluates to `0` and `block!(la: { 1 })`
evaluates to `1`. -/
theorem C2_break_any_depth_evaluates :
    (∀ (la : Tok) (v : Int) (s : SNest), la ≠ Tok.id ";" → la ≠ Tok.id "=" →
      postsOk la s → BlockEvalsTo la (sToksN la v s) (Val.int v))
    ∧ BlockEvalsTo (Tok.id "la") [Tok.id "break", Tok.id "la", Tok.lit 0, Tok.id ";",
        Tok.lit 1] (Val.int 0)
    ∧ BlockEvalsTo (Tok.id "la") [Tok.lit 1] (Val.int 1) := by
  refine ⟨fun la v s h1 h2 h3 => sNest_block la v h1 h2 s h3, ?_, ?_⟩
  · have h := sNest_block (Tok.id "la") 0 (by decide) (by decide) (SNest.here [Tok.lit 1])
      ⟨([Tok.lit 1], false), rwCore_single_lit _ _ _ 1, by simp [notColonHead]⟩
    exact h
  · refine ⟨wrap (Tok.id "la") LoopTag.bare "_ret" [] [Tok.lit 1],
      setVar [] "_ret" (Val.int 1), ?_, ?_⟩
    · rw [blockBare_rw, rwCore_single_lit]
    · exact wrap_bare_eval_norm (Tok.id "la") [Tok.lit 1] (Val.int 1) []
        (by decide) (by decide) ⟨3, rfl⟩

theorem C2_break_any_depth_evaluates_witness :
    BlockEvalsTo (Tok.id "lb")
      (sToksN (Tok.id "lb") 7
        (SNest.deeper (SNest.stmt PWrap.paren [PWrap.square] [Tok.lit 9]) [Tok.lit 3]))
      (Val.int 7) := by
  refine C2_break_any_depth_evaluates.1 (Tok.id "lb") 7 _ (by decide) (by decide) ?_
  exact ⟨⟨([Tok.lit 9], false), rwCore_single_lit _ _ _ 9⟩,
    ([Tok.lit 3], false), rwCore_single_lit _ _ _ 3, by simp [notColonHead]⟩

mutual
/-- Does some `break`/`continue` inside this token's bracket group reference
the label `la` (claim C3's side condition, formalized from its words)? -/
def refsOwnT (la : Tok) : Tok → Bool
  | Tok.group _ inner => refsOwnLabel la inner
  | _ => false
/-- Does the sequence contain a `break` or `continue` token immediately
followed by the label `la`, at any nesting depth? -/
def refsOwnLabel (la : Tok) : List Tok → Bool
  | [] => false
  | Tok.id "break" :: t :: rest =>
    if t = la then true else refsOwnLabel la (t :: rest)
  | Tok.id "continue" :: t :: rest =>
    if t = la then true else refsOwnLabel la (t :: rest)
  | t :: rest => refsOwnT la t || refsOwnLabel la rest
end

/-- C3 (amended): on inert bodies — no `break`/`continue` token in any
scanned position, no `#[block(ignore)]` marker, item statements parseable —
the scanner is the identity, and the bare-block construct evaluates to
exactly the value of the body run directly as a plain scope. -/
theorem C3_scan_identity_on_inert (la : Tok) (body : List Tok) (v : Val) (env1 : Env)
    (hin : inert body = true) (h1 : la ≠ Tok.id ";") (h2 : la ≠ Tok.id "=")
    (hev : Evals (Req.blk body) [] (Ctrl.norm v, env1)) :
    blockBare la body = some (wrap la LoopTag.bare "_ret" [] body)
    ∧ BlockEvalsTo la body v := by
  have hscan := rwCore_inert la "_ret" LoopTag.bare body hin
  constructor
  · rw [blockBare_rw, hscan]
  · refine ⟨wrap la LoopTag.bare "_ret" [] body, setVar env1 "_ret" v, ?_, ?_⟩
    · rw [blockBare_rw, hscan]
    · exact wrap_bare_eval_norm la body v env1 h1 h2 hev

theorem C3_scan_identity_on_inert_witness :
    blockBare (Tok.id "la") [Tok.lit 4]
      = some (wrap (Tok.id "la") LoopTag.bare "_ret" [] [Tok.lit 4])
    ∧ BlockEvalsTo (Tok.id "la") [Tok.lit 4] (Val.int 4) :=
  C3_scan_identity_on_inert (Tok.id "la") [Tok.lit 4] (Val.int 4) []
    (by simp [inert]) (by decide) (by decide) ⟨3, rfl⟩

/-- Counterexample body for claim C3 as stated: a bare `break` inside an
inner loop — the body references no label at all, direct evaluation yields
`5`, but the scanner error-rewrites the bare `break`. -/
def c3Body : List Tok :=
  [Tok.id "lb", Tok.id ":", Tok.id "loop",
   Tok.group .brace [Tok.id "break", Tok.id ";"], Tok.lit 5]

/-- What `block!(la: { c3Body })` expands to: the bare `break` has become
`block!(@error NoBareBreakInNamedBlock);`, which cannot evaluate. -/
def c3Expansion : Tok :=
  Tok.group .brace
    [Tok.id "let", Tok.id "_ret", Tok.id ";", Tok.id "la", Tok.id ":", Tok.id "loop",
     Tok.group .brace
       [Tok.id "_ret", Tok.id "=",
        Tok.group .brace
          [Tok.id "lb", Tok.id ":", Tok.id "loop",
           Tok.group .brace
             [Tok.id "block", Tok.id "!",
              Tok.group .paren [Tok.id "@", Tok.id "error", Tok.id "NoBareBreakInNamedBlock"],
              Tok.id ";"],
           Tok.lit 5],
        Tok.id ";", Tok.id "break", Tok.id "la", Tok.id ";"],
     Tok.id "_ret"]

/-- Claim C3 as stated is false: for the body `lb: loop { break; } 5` — which
contains no `break`/`continue` referencing the block's own label — direct
evaluation as a plain scope yields `5`, but the construct does not evaluate
to `5` (the scanner replaces the legal bare `break` of the inner loop by the
`NoBareBreakInNamedBlock` compile-failure construct). -/
theorem C3_counterexample :
    ¬ (∀ (la : Tok) (body : List Tok) (v : Val),
        refsOwnLabel la body = false →
        ((∃ env2, Evals (Req.blk body) [] (Ctrl.norm v, env2)) ↔ BlockEvalsTo la body v)) := by
  intro hclaim
  have hrefs : refsOwnLabel (Tok.id "la") c3Body = false := by decide
  have hdir : ∃ env2, Evals (Req.blk c3Body) [] (Ctrl.norm (Val.int 5), env2) :=
    ⟨[], 8, rfl⟩
  obtain ⟨t, env2, hbb, hevt⟩ := (hclaim (Tok.id "la") c3Body (Val.int 5) hrefs).mp hdir
  have hscan : blockBare (Tok.id "la") c3Body = some c3Expansion := rfl
  rw [hscan] at hbb
  have ht := Option.some.inj hbb
  subst ht
  have herr : Evals (Req.expr c3Expansion) [] (Ctrl.err, []) := ⟨20, rfl⟩
  have hcontr := Evals_det _ _ _ _ hevt herr
  simp at hcontr

/-- C1 (amended): scanning `break L2 EXPR` — when L2 equals the block's own
label, the scanner emits `{ RET = EXPR ; break L2 ; }` (statement form) or
`{ RET = EXPR ; break L2 }` (end-of-group form), a plain break with no
trailing value after stashing the value, and continues with the remaining
input; when L2 differs, the statement is passed through, with a statement
terminator `;` appended in the end-of-group form (so "unchanged" holds
verbatim only for the `break L2 EXPR ;` form). -/
theorem C1_break_expr_rules (life : Tok) (ret : String) (lp : LoopTag) (l2 : Tok)
    (e tail : List Tok) (hl : l2 ≠ Tok.id ";") (he : e ≠ []) (hsem : Tok.id ";" ∉ e) :
    (life = l2 →
      classify life ret lp (Tok.id "break") (l2 :: (e ++ Tok.id ";" :: tail))
        = ScanAct.emit [Tok.group .brace ([Tok.id ret, Tok.id "="] ++ e
            ++ [Tok.id ";", Tok.id "break", l2, Tok.id ";"])] tail true
      ∧ classify life ret lp (Tok.id "break") (l2 :: e)
        = ScanAct.emit [Tok.group .brace ([Tok.id ret, Tok.id "="] ++ e
            ++ [Tok.id ";", Tok.id "break", l2])] [] true)
    ∧ (life ≠ l2 →
      classify life ret lp (Tok.id "break") (l2 :: (e ++ Tok.id ";" :: tail))
        = ScanAct.emit ([Tok.id "break", l2] ++ e ++ [Tok.id ";"]) tail true
      ∧ classify life ret lp (Tok.id "break") (l2 :: e)
        = ScanAct.emit ([Tok.id "break", l2] ++ e ++ [Tok.id ";"]) [] true) := by
  constructor
  · intro hm
    exact ⟨classify_break_expr_semi_eq life ret lp l2 e tail hl he hsem hm,
      classify_break_expr_end_eq life ret lp l2 e hl he hsem hm⟩
  · intro hm
    exact ⟨classify_break_expr_semi_ne life ret lp l2 e tail hl he hsem hm,
      classify_break_expr_end_ne life ret lp l2 e hl he hsem hm⟩

theorem C1_break_expr_rules_witness :
    classify (Tok.id "la") "_ret" LoopTag.bare (Tok.id "break")
        (Tok.id "la" :: ([Tok.lit 3] ++ Tok.id ";" :: [Tok.lit 9]))
      = ScanAct.emit [Tok.group .brace ([Tok.id "_ret", Tok.id "="] ++ [Tok.lit 3]
          ++ [Tok.id ";", Tok.id "break", Tok.id "la", Tok.id ";"])] [Tok.lit 9] true :=
  ((C1_break_expr_rules (Tok.id "la") "_ret" LoopTag.bare (Tok.id "la") [Tok.lit 3]
      [Tok.lit 9] (by decide) (by decide) (by decide)).1 rfl).1

/-- Claim C1 as stated is false in its no-match half: a non-matching
`break L2 EXPR` that ends its group is NOT emitted unchanged — the scanner
appends a `;` (`break lb 0` becomes `break lb 0 ;`). -/
theorem C1_counterexample :
    ¬ (∀ (life : Tok) (ret : String) (lp : LoopTag) (l2 : Tok) (e : List Tok),
        l2 ≠ Tok.id ";" → e ≠ [] → Tok.id ";" ∉ e → life ≠ l2 →
        ∃ c, classify life ret lp (Tok.id "break") (l2 :: e)
          = ScanAct.emit (Tok.id "break" :: l2 :: e) [] c) := by
  intro h
  obtain ⟨c, hc⟩ := h (Tok.id "la") "_ret" LoopTag.bare (Tok.id "lb") [Tok.lit 0]
    (by decide) (by decide) (by decide) (by decide)
  rw [classify_break_expr_end_ne _ _ _ _ _ (by decide) (by decide) (by decide)
    (by decide)] at hc
  simp at hc

/-- C4 (code bug): the end-of-group `continue LABEL` rule (`src/lib.rs` line
203) constrains only the label, not the shape tag, so a matching `continue`
is replaced by the `NoMatchedContinueInNamedBlock` compile-failure construct
even under the loop shape — where the spec (and the comment at lines 190-191)
say it is legal and passes through unchanged.  Concretely,
`block!(la: loop { continue la })` expands to a loop whose body is the error
construct. -/
theorem C4_loop_continue_end_bug :
    (∀ (life : Tok) (ret : String) (l2 : Tok), l2 ≠ Tok.id ";" → life = l2 →
      classify life ret LoopTag.loopShape (Tok.id "continue") [l2]
        = ScanAct.emit (errorCall "NoMatchedContinueInNamedBlock") [] false)
    ∧ blockLoop (Tok.id "la") [Tok.id "continue", Tok.id "la"]
      = some (wrap (Tok.id "la") LoopTag.loopShape "_ret"
          [Tok.id "=", Tok.group .paren []] (errorCall "NoMatchedContinueInNamedBlock")) := by
  constructor
  · intro life ret l2 h1 h2
    exact classify_continue_end_eq life ret LoopTag.loopShape l2 h1 h2
  · rfl

theorem C4_loop_continue_end_bug_witness :
    classify (Tok.id "la") "_ret" LoopTag.loopShape (Tok.id "continue") [Tok.id "la"]
      = ScanAct.emit (errorCall "NoMatchedContinueInNamedBlock") [] false :=
  C4_loop_continue_end_bug.1 (Tok.id "la") "_ret" (Tok.id "la") (by decide) rfl

/-- C5: a bare `break`/`continue` (no label), with or without a trailing
`;`, makes the scanner substitute the named compile-failure construct
`block!(@error NoBareBreakInNamedBlock);` (resp. `...Continue...`) at that
exact output position, consume the statement, and continue scanning the
remaining input — under either shape tag. -/
theorem C5_bare_break_continue_error (life : Tok) (ret : String) (lp : LoopTag)
    (tail : List Tok) :
    rwCore life ret lp (Tok.id "break" :: Tok.id ";" :: tail)
      = (match rwCore life ret lp tail with
         | none => none
         | some p => some (errorCall "NoBareBreakInNamedBlock" ++ p.1, p.2))
    ∧ rwCore life ret lp [Tok.id "break"]
      = some (errorCall "NoBareBreakInNamedBlock", false)
    ∧ rwCore life ret lp (Tok.id "continue" :: Tok.id ";" :: tail)
      = (match rwCore life ret lp tail with
         | none => none
         | some p => some (errorCall "NoBareContinueInNamedBlock" ++ p.1, p.2))
    ∧ rwCore life ret lp [Tok.id "continue"]
      = some (errorCall "NoBareContinueInNamedBlock", false) := by
  refine ⟨?_, ?_, ?_, ?_⟩
  · rw [rwCore_emit _ _ _ _ _ _ _ _ (classify_break_bare_semi life ret lp tail)]
    cases hr : rwCore life ret lp tail <;> simp
  · rw [rwCore_emit _ _ _ _ _ _ _ _ (classify_break_bare life ret lp), rwCore_nil]
    simp
  · rw [rwCore_emit _ _ _ _ _ _ _ _ (classify_continue_bare_semi life ret lp tail)]
    cases hr : rwCore life ret lp tail <;> simp
  · rw [rwCore_emit _ _ _ _ _ _ _ _ (classify_continue_bare life ret lp), rwCore_nil]
    simp

/-- C6: item definitions (any keyword of `isItemKw`, the `pub`-headed ones
included, and the `unsafe trait`/`unsafe impl`/`unsafe fn` forms) are copied
to the output verbatim — the emitted tokens are exactly the consumed input
segment, with no scanning of the interior — and a token immediately preceded
by the `#[block(ignore)]` marker is copied verbatim likewise; in particular a
`break`/`continue` naming the enclosing block's label inside such a region is
never rewritten by this pass. -/
theorem C6_opaque_regions (life : Tok) (ret : String) (lp : LoopTag) :
    (∀ (s : String) (rest item rest2 : List Tok), isItemKw s = true →
      parseItem (Tok.id s :: rest) = some (item, rest2) →
      classify life ret lp (Tok.id s) rest = ScanAct.emit item rest2 false
      ∧ Tok.id s :: rest = item ++ rest2)
    ∧ (∀ (kw : String) (rest item rest2 : List Tok),
      (kw = "trait" ∨ kw = "impl" ∨ kw = "fn") →
      parseItem (Tok.id "unsafe" :: Tok.id kw :: rest) = some (item, rest2) →
      classify life ret lp (Tok.id "unsafe") (Tok.id kw :: rest)
        = ScanAct.emit item rest2 false
      ∧ Tok.id "unsafe" :: Tok.id kw :: rest = item ++ rest2)
    ∧ (∀ (ig : Tok) (tail : List Tok),
      classify life ret lp (Tok.id "#")
          (Tok.group .square [Tok.id "block", Tok.group .paren [Tok.id "ignore"]] :: ig :: tail)
        = ScanAct.emit [ig] tail false) := by
  refine ⟨?_, ?_, ?_⟩
  · intro s rest item rest2 hkw hparse
    rw [classify_item_kw life ret lp s rest hkw]
    unfold itemOf
    rw [hparse]
    exact ⟨rfl, (parseItem_spec _ _ _ hparse).1⟩
  · intro kw rest item rest2 hkw hparse
    have hcl : classify life ret lp (Tok.id "unsafe") (Tok.id kw :: rest)
        = itemOf (Tok.id "unsafe" :: Tok.id kw :: rest) := by
      rcases hkw with h | h | h <;> subst h
      · exact classify_unsafe_trait life ret lp rest
      · exact classify_unsafe_impl life ret lp rest
      · exact classify_unsafe_fn life ret lp rest
    rw [hcl]
    unfold itemOf
    rw [hparse]
    exact ⟨rfl, (parseItem_spec _ _ _ hparse).1⟩
  · intro ig tail
    exact classify_ignore life ret lp ig tail

theorem C6_opaque_regions_witness :
    classify (Tok.id "la") "_ret" LoopTag.bare (Tok.id "fn")
        [Tok.id "f", Tok.group .paren [],
         Tok.group .brace [Tok.id "break", Tok.id "la", Tok.id ";"], Tok.lit 7]
      = ScanAct.emit [Tok.id "fn", Tok.id "f", Tok.group .paren [],
          Tok.group .brace [Tok.id "break", Tok.id "la", Tok.id ";"]] [Tok.lit 7] false
    ∧ Tok.id "fn" :: [Tok.id "f", Tok.group .paren [],
        Tok.group .brace [Tok.id "break", Tok.id "la", Tok.id ";"], Tok.lit 7]
      = [Tok.id "fn", Tok.id "f", Tok.group .paren [],
          Tok.group .brace [Tok.id "break", Tok.id "la", Tok.id ";"]] ++ [Tok.lit 7] :=
  (C6_opaque_regions (Tok.id "la") "_ret" LoopTag.bare).1 "fn"
    [Tok.id "f", Tok.group .paren [],
     Tok.group .brace [Tok.id "break", Tok.id "la", Tok.id ";"], Tok.lit 7]
    _ _ (by decide) (by decide)

/-- C7: a `break LABEL ;` statement (no trailing expression) passes through
to the output unchanged and scanning continues, regardless of whether LABEL
matches the block's own label (no label comparison occurs in this rule). -/
theorem C7_break_label_semi_passthrough (life : Tok) (ret : String) (lp : LoopTag)
    (l2 : Tok) (tail : List Tok) (hl : l2 ≠ Tok.id ";") :
    classify life ret lp (Tok.id "break") (l2 :: Tok.id ";" :: tail)
      = ScanAct.emit [Tok.id "break", l2, Tok.id ";"] tail false
    ∧ rwCore life ret lp (Tok.id "break" :: l2 :: Tok.id ";" :: tail)
      = (match rwCore life ret lp tail with
         | none => none
         | some p => some ([Tok.id "break", l2, Tok.id ";"] ++ p.1, p.2)) := by
  refine ⟨classify_break_life_semi life ret lp l2 tail hl, ?_⟩
  rw [rwCore_emit _ _ _ _ _ _ _ _ (classify_break_life_semi life ret lp l2 tail hl)]
  cases hr : rwCore life ret lp tail <;> simp

theorem C7_break_label_semi_passthrough_witness :
    classify (Tok.id "la") "_ret" LoopTag.bare (Tok.id "break")
        (Tok.id "la" :: Tok.id ";" :: [Tok.lit 2])
      = ScanAct.emit [Tok.id "break", Tok.id "la", Tok.id ";"] [Tok.lit 2] false
    ∧ rwCore (Tok.id "la") "_ret" LoopTag.bare
        (Tok.id "break" :: Tok.id "la" :: Tok.id ";" :: [Tok.lit 2])
      = (match rwCore (Tok.id "la") "_ret" LoopTag.bare [Tok.lit 2] with
         | none => none
         | some p => some ([Tok.id "break", Tok.id "la", Tok.id ";"] ++ p.1, p.2)) :=
  C7_break_label_semi_passthrough (Tok.id "la") "_ret" LoopTag.bare (Tok.id "la")
    [Tok.lit 2] (by decide)

/-- C8 (amended): the loop entry point supplies the dummy initializer
`= ()` for the result slot, and the expansion keeps it exactly when no
`break LIFETIME EXPR` rule fired during the scan; any such break — matching
or not — clears it, so the slot is dummy-initialized only on break-free
scans. -/
theorem C8_loop_dummy_initializer (la : Tok) (body : List Tok) (p : List Tok × Bool)
    (hp : rwCore la "_ret" LoopTag.loopShape body = some p) :
    (entryLoop la body).init = [Tok.id "=", Tok.group .paren []]
    ∧ blockLoop la body = some (wrap la LoopTag.loopShape "_ret"
        (if p.2 then [] else [Tok.id "=", Tok.group .paren []]) p.1) := by
  refine ⟨rfl, ?_⟩
  rw [blockLoop_rw, hp]

theorem C8_loop_dummy_initializer_witness :
    (entryLoop (Tok.id "la") [Tok.lit 1]).init = [Tok.id "=", Tok.group .paren []]
    ∧ blockLoop (Tok.id "la") [Tok.lit 1] = some (wrap (Tok.id "la") LoopTag.loopShape
        "_ret" (if false then [] else [Tok.id "=", Tok.group .paren []]) [Tok.lit 1]) :=
  C8_loop_dummy_initializer (Tok.id "la") [Tok.lit 1] ([Tok.lit 1], false)
    (rwCore_single_lit _ _ _ 1)

/-- Claim C8 as stated is false: the expansion does not always declare the
result slot with the dummy initializer — a body containing a non-matching
`break lb 0 ;` makes the scan clear it, yielding `let _ret ;` with no
initializer at all. -/
theorem C8_counterexample :
    ¬ (∀ (la : Tok) (body : List Tok) (t : Tok), blockLoop la body = some t →
        ∃ out, t = wrap la LoopTag.loopShape "_ret"
          [Tok.id "=", Tok.group .paren []] out) := by
  intro h
  have hscan : blockLoop (Tok.id "la") [Tok.id "break", Tok.id "lb", Tok.lit 0, Tok.id ";"]
      = some (wrap (Tok.id "la") LoopTag.loopShape "_ret" []
          [Tok.id "break", Tok.id "lb", Tok.lit 0, Tok.id ";"]) := rfl
  obtain ⟨out, hout⟩ := h _ _ _ hscan
  simp [wrap] at hout

/-- C9: the scanner terminates on every finite input — the fuel `meas s + 1`
always yields a verdict; extra fuel never changes the verdict, so the
transformation is a deterministic total function of its syntactic input; and
the terminal emission state is reached exactly when the context stack is
empty and the input is exhausted (in a brace context). -/
theorem C9_scanner_terminates_deterministic :
    (∀ s : ScanState, ∃ r, scanF (meas s + 1) s = some r)
    ∧ (∀ (n1 n2 : Nat) (s : ScanState) (r1 r2 : Option Tok),
        scanF n1 s = some r1 → scanF n2 s = some r2 → r1 = r2)
    ∧ (∀ (s : ScanState) (t : Tok), step s = StepRes.done t ↔
        (s.input = [] ∧ s.frames = [] ∧ s.paren = Brack.brace
          ∧ t = wrap s.life s.lp s.ret s.init s.out)) := by
  refine ⟨?_, ?_, ?_⟩
  · intro s
    cases hr : scanF (meas s + 1) s with
    | none => exact absurd hr (scanF_adequate _ _ (by omega))
    | some r => exact ⟨r, rfl⟩
  · intro n1 n2 s r1 r2 h1 h2
    have g1 := scanF_le n1 (n1 + n2) s r1 (by omega) h1
    have g2 := scanF_le n2 (n1 + n2) s r2 (by omega) h2
    rw [g1] at g2
    exact Option.some.inj g2
  · intro s t
    obtain ⟨paren, life, ret, input, out, frames, lp, init⟩ := s
    constructor
    · intro h
      cases input with
      | cons t2 rest =>
        simp only [step] at h
        split at h <;> cases h
      | nil =>
        cases frames with
        | cons f rest => simp only [step] at h; cases h
        | nil =>
          simp only [step] at h
          by_cases hb : paren = Brack.brace
          · rw [if_pos hb] at h
            injection h with ht
            subst hb
            exact ⟨rfl, rfl, rfl, ht.symm⟩
          · rw [if_neg hb] at h
            cases h
    · rintro ⟨h1, h2, h3, h4⟩
      simp only at h1 h2 h3 h4
      subst h1
      subst h2
      subst h3
      subst h4
      simp [step]

theorem C9_scanner_terminates_deterministic_witness :
    step ⟨Brack.brace, Tok.id "la", "_ret", [], [Tok.lit 1], [], LoopTag.bare, []⟩
      = StepRes.done (wrap (Tok.id "la") LoopTag.bare "_ret" [] [Tok.lit 1]) :=
  (C9_scanner_terminates_deterministic.2.2
    ⟨Brack.brace, Tok.id "la", "_ret", [], [Tok.lit 1], [], LoopTag.bare, []⟩
    (wrap (Tok.id "la") LoopTag.bare "_ret" [] [Tok.lit 1])).mpr ⟨rfl, rfl, rfl, rfl⟩

/-- C10: scanning any `break LABEL EXPR ;` statement — whether or not LABEL
matches the block's own label — steps to a state with the slot-initializer
component emptied, the same shape tag and the same context stack, consuming
the statement; consequently a loop-shape scan in which such a rule fired
expands with no `= ()` dummy initializer on the result slot. -/
theorem C10_break_expr_clears_init (s : ScanState) (l2 : Tok) (e tail : List Tok)
    (hl : l2 ≠ Tok.id ";") (he : e ≠ []) (hsem : Tok.id ";" ∉ e)
    (hinput : s.input = Tok.id "break" :: l2 :: (e ++ Tok.id ";" :: tail)) :
    (∃ ts, step s = StepRes.next
        { s with input := tail, out := s.out ++ ts, init := [] })
    ∧ (∀ (la : Tok) (body out : List Tok),
        rwCore la "_ret" LoopTag.loopShape body = some (out, true) →
        blockLoop la body = some (wrap la LoopTag.loopShape "_ret" [] out)) := by
  constructor
  · obtain ⟨paren, life, ret, input, out, frames, lp, init⟩ := s
    simp only at hinput
    subst hinput
    by_cases hm : life = l2
    · refine ⟨[Tok.group .brace ([Tok.id ret, Tok.id "="] ++ e
        ++ [Tok.id ";", Tok.id "break", l2, Tok.id ";"])], ?_⟩
      simp only [step]
      rw [classify_break_expr_semi_eq life ret lp l2 e tail hl he hsem hm]
      rfl
    · refine ⟨[Tok.id "break", l2] ++ e ++ [Tok.id ";"], ?_⟩
      simp only [step]
      rw [classify_break_expr_semi_ne life ret lp l2 e tail hl he hsem hm]
      rfl
  · intro la body out hrw
    rw [blockLoop_rw, hrw]
    rfl

theorem C10_break_expr_clears_init_witness :
    (∃ ts, step ⟨Brack.brace, Tok.id "la", "_ret",
        [Tok.id "break", Tok.id "lb", Tok.lit 0, Tok.id ";"], [], [],
        LoopTag.loopShape, [Tok.id "=", Tok.group .paren []]⟩
      = StepRes.next ⟨Brack.brace, Tok.id "la", "_ret", [], [] ++ ts, [],
          LoopTag.loopShape, []⟩)
    ∧ (∀ (la : Tok) (body out : List Tok),
        rwCore la "_ret" LoopTag.loopShape body = some (out, true) →
        blockLoop la body = some (wrap la LoopTag.loopShape "_ret" [] out)) :=
  C10_break_expr_clears_init
    ⟨Brack.brace, Tok.id "la", "_ret",
      [Tok.id "break", Tok.id "lb", Tok.lit 0, Tok.id ";"], [], [],
      LoopTag.loopShape, [Tok.id "=", Tok.group .paren []]⟩
    (Tok.id "lb") [Tok.lit 0] [] (by decide) (by decide) (by decide) rfl
